import Mathlib

/-!
Shallow embedding of `recordlinkage/fuse.py`: the data-fusion engine
(`FuseCore` / `FuseLinks`).  Pandas objects are modelled by plain lists:

* a `DFrame` is an ordered association list of columns, each column an
  ordered association list from record id to cell value (table row order);
* the pair `MultiIndex` is a `PairIndex`: the list of matched `(idA, idB)`
  record-id pairs plus the two optional level names.  `vectors.index.to_frame()`
  gives a frame whose column keys are `name or level-number` (pandas falsy
  check: a `None` or empty-string name falls back to the level number), and
  `self.index[0]` / `self.index[1]` are lookups of the literal keys `0` / `1`
  in that frame, failing with a key error when the level carries a name;
* Python exceptions are `Except FuseError`;
* `zip(*seqs)` is `pyZip` (truncates to the shortest sequence; empty for no
  sequences), `zip(a, b)` is `List.zip`;
* `pd.Series(list(...))` attaches a fresh integer range index, modelled by
  `mkSeries`; row labels are `Nat ⊕ (Nat × Nat)` so that a range label is
  distinguishable from a pair-of-record-ids label.
-/

namespace RecordFuse

/-- A scalar Python cell value (string, integer, or `None`/`NaN`).
The model restricts cell values and static-metadata constants to scalars. -/
inductive PyVal where
  | vstr : String → PyVal
  | vint : Int → PyVal
  | vnone : PyVal
deriving DecidableEq, Repr

instance : Inhabited PyVal := ⟨PyVal.vnone⟩

/-- An argument that Python's `listify` normalizes: either a single scalar
(column name or constant) or a list of scalars. -/
inductive ColArg where
  | one : PyVal → ColArg
  | many : List PyVal → ColArg
deriving DecidableEq, Repr

/-- `recordlinkage.utils.listify` on a non-`None` argument: a list is kept,
anything else is wrapped in a one-element list. -/
def listify : ColArg → List PyVal
  | .one v => [v]
  | .many l => l

/-- The raw static-metadata constant: the Python object passed as `meta_a` /
`meta_b`.  A list-valued constant is outside the scalar cell model and is
mapped to `vnone`; every claim below uses scalar constants. -/
def constArgVal : ColArg → PyVal
  | .one v => v
  | .many _ => PyVal.vnone

/-- A Python object passed where a callable is expected: either an actual
unary function or some non-callable object. -/
inductive Callable where
  | fn : (PyVal → PyVal) → Callable
  | notCallable : Callable

/-- The exceptions `_make_resolution_series` / `fuse` can raise. -/
inductive FuseError where
  | dfANone : FuseError
  | dfBNone : FuseError
  | transformValsNotCallable : FuseError
  | transformMetaNotCallable : FuseError
  | metaOneSided : FuseError
  | colNotFound : PyVal → FuseError
  | idNotFound : Nat → FuseError
  | indexKeyError : Nat → FuseError
  | pyIndexError : FuseError
  | noObjectsToConcat : FuseError
deriving DecidableEq, Repr

/-- The five configuration errors raised by the validation prologue of
`_make_resolution_series` (lines 169-187). -/
def isValidationError : FuseError → Bool
  | .dfANone => true
  | .dfBNone => true
  | .transformValsNotCallable => true
  | .transformMetaNotCallable => true
  | .metaOneSided => true
  | _ => false

/-- Lookup errors: a missing column, a missing record id, or a missing
column key in the pair-index frame. -/
def isLookupError : FuseError → Bool
  | .colNotFound _ => true
  | .idNotFound _ => true
  | .indexKeyError _ => true
  | _ => false

/-- A source table: ordered columns, each an ordered association list from
record id to cell value (assumed unique ids, as tables are keyed by id). -/
structure DFrame where
  cols : List (PyVal × List (Nat × PyVal))
deriving DecidableEq, Repr

/-- `df[name]`: column lookup, raising a key error when absent. -/
def getCol (df : DFrame) (k : PyVal) : Except FuseError (List (Nat × PyVal)) :=
  match df.cols.find? (fun c => decide (c.1 = k)) with
  | some c => .ok c.2
  | none => .error (.colNotFound k)

/-- `series.loc[id]` for one record id. -/
def locOne (col : List (Nat × PyVal)) (id : Nat) : Except FuseError PyVal :=
  match col.find? (fun r => decide (r.1 = id)) with
  | some r => .ok r.2
  | none => .error (.idNotFound id)

/-- Exception-propagating map, i.e. a Python `for` loop that appends
`f x` for each element and lets the first exception escape. -/
def exMapM (f : α → Except FuseError β) : List α → Except FuseError (List β)
  | [] => .ok []
  | a :: as => do
    let b ← f a
    let bs ← exMapM f as
    pure (b :: bs)

/-- `series.loc[list_of_ids]`: values at the given ids, in the given order. -/
def locList (col : List (Nat × PyVal)) (ids : List Nat) : Except FuseError (List PyVal) :=
  exMapM (locOne col) ids

/-- The pair `MultiIndex`: matched record-id pairs plus the level names. -/
structure PairIndex where
  nameA : Option String
  nameB : Option String
  pairs : List (Nat × Nat)
deriving DecidableEq, Repr

/-- The column key a level gets in `index.to_frame()`: `name or level`
(a `None` or empty-string name is falsy in Python and falls back to the
level number). -/
def levelKey (name : Option String) (lvl : Nat) : Nat ⊕ String :=
  match name with
  | none => .inl lvl
  | some s => if s.isEmpty then .inl lvl else .inr s

/-- `self.index[lvl]` for the literal integer keys `0` and `1`: the level's
record ids when that key is a column of the index frame, otherwise a
key error. -/
def indexFrameCol (index : PairIndex) (lvl : Nat) : Except FuseError (List Nat) :=
  if levelKey index.nameA 0 = Sum.inl lvl then .ok (index.pairs.map Prod.fst)
  else if levelKey index.nameB 1 = Sum.inl lvl then .ok (index.pairs.map Prod.snd)
  else .error (.indexKeyError lvl)

/-- Row labels: a fresh integer range label or a pair-of-record-ids label. -/
abbrev Lbl := Nat ⊕ (Nat × Nat)

/-- The row labels of a `pd.Series` built from a plain Python list. -/
def rangeLbls (n : Nat) : List Lbl :=
  (List.range n).map Sum.inl

/-- The row labels the Pair Index itself would induce. -/
def pairLbls (index : PairIndex) : List Lbl :=
  index.pairs.map Sum.inr

/-- A pandas `Series`: row labels plus values, in order. -/
structure PSeries (α : Type) where
  idx : List Lbl
  vals : List α
deriving DecidableEq, Repr

/-- One element of the resolution series: the per-pair `values_tuple`,
optionally paired with a `metadata_tuple` (both in A-then-B order). -/
inductive Aligned where
  | noMeta : List PyVal → Aligned
  | withMeta : List PyVal → List PyVal → Aligned
deriving DecidableEq, Repr

/-- The `values_tuple` of an aligned element. -/
def valuesOf : Aligned → List PyVal
  | .noMeta v => v
  | .withMeta v _ => v

/-- A conflict-resolution strategy: one aligned element plus the job's
fixed extra positional arguments, returning one resolved value. -/
def Strategy : Type := Aligned → List PyVal → PyVal

/-- One entry of `self.resolution_queue` (the dict built by `queue_resolve`;
the unused `kwargs` entry is dropped). -/
structure Job where
  rfun : Strategy
  values_a : ColArg
  values_b : ColArg
  meta_a : Option ColArg
  meta_b : Option ColArg
  transform_vals : Option Callable
  transform_meta : Option Callable
  static_meta : Bool
  params : Option (List PyVal)

/-- `raise AssertionError` when the table reference is still `None`. -/
def reqSome (x : Option DFrame) (e : FuseError) : Except FuseError DFrame :=
  match x with
  | none => .error e
  | some d => .ok d

/-- The `transform_vals` / `transform_meta` validation: `None` passes as no
transform, a function passes as itself, anything non-callable raises. -/
def checkCallable (x : Option Callable) (e : FuseError) : Except FuseError (Option (PyVal → PyVal)) :=
  match x with
  | none => .ok none
  | some (.fn f) => .ok (some f)
  | some .notCallable => .error e

/-- `[s.apply(f) for s in data]` when a transform is configured. -/
def applyOptFn : Option (PyVal → PyVal) → List (List PyVal) → List (List PyVal)
  | none, d => d
  | some f, d => d.map (List.map f)

/-- Python `zip(*seqs)`: tuples of the i-th elements, truncated to the
shortest sequence; `zip()` of no sequences is empty. -/
def pyZip (ls : List (List PyVal)) : List (List PyVal) :=
  match ls with
  | [] => []
  | l0 :: rest =>
    let n := rest.foldl (fun m l => min m l.length) l0.length
    (List.range n).map (fun i => (l0 :: rest).map (fun l => l.getD i PyVal.vnone))

/-- `df[name].loc[list(self.index[lvl])]`, evaluated in source order:
column first, then the index-frame half, then the row selection. -/
def fetchDirect (df : DFrame) (index : PairIndex) (lvl : Nat) (name : PyVal) :
    Except FuseError (List PyVal) := do
  let col ← getCol df name
  let ids ← indexFrameCol index lvl
  locList col ids

/-- The `data_a` / `data_b` (and direct / generalized metadata) collection
loops.  When `gen` holds, the first name's whole column is taken in table
row order (the source omits `.loc` here) and referenced `genLen` times;
`names[0]` on an empty list raises `IndexError`.  Otherwise each named
column is fetched at the pair ids. -/
def collectValues (df : DFrame) (index : PairIndex) (lvl : Nat) (names : List PyVal)
    (gen : Bool) (genLen : Nat) : Except FuseError (List (List PyVal)) :=
  if gen then
    match names with
    | [] => .error .pyIndexError
    | n0 :: _ => do
      let col ← getCol df n0
      pure (List.replicate genLen (col.map Prod.snd))
  else
    exMapM (fetchDirect df index lvl) names

/-- Static metadata: `count` copies of
`pd.Series([const] * len(self.index), index=self.index[lvl])`.  Building the
series evaluates `self.index[lvl]` (so a named level still raises inside the
loop), and the values are the constant repeated once per pair. -/
def staticMeta (index : PairIndex) (lvl : Nat) (count : Nat) (c : PyVal) :
    Except FuseError (List (List PyVal)) :=
  exMapM (fun _ => do
      let _ ← indexFrameCol index lvl
      pure (List.replicate index.pairs.length c))
    (List.range count)

/-- The static constant actually used: the raw `meta_a` / `meta_b` object. -/
def constStatic : Option ColArg → PyVal
  | some a => constArgVal a
  | none => PyVal.vnone

/-- The body of `FuseLinks._make_resolution_series` (lines 166-326) up to,
but not including, the final `pd.Series(...)` construction: validation,
listification, the generalization decision, value and metadata collection,
transforms, and zipping into per-pair aligned elements.

The generalization flags collapse the source's `None / False / True`
three-state flags to `Bool`: the flags are `True` exactly when metadata is
requested, `static_meta` is false, and the side's counts mismatch in the
corresponding direction. -/
def makeAlignedRows (df_a df_b : Option DFrame) (index : PairIndex)
    (values_a values_b : ColArg) (meta_a meta_b : Option ColArg)
    (transform_vals transform_meta : Option Callable) (static_meta : Bool) :
    Except FuseError (List Aligned) := do
  let dfa ← reqSome df_a FuseError.dfANone
  let dfb ← reqSome df_b FuseError.dfBNone
  let tv ← checkCallable transform_vals FuseError.transformValsNotCallable
  let tm ← checkCallable transform_meta FuseError.transformMetaNotCallable
  let va := listify values_a
  let vb := listify values_b
  if meta_a.isSome != meta_b.isSome then
    throw FuseError.metaOneSided
  let useMeta := meta_a.isSome || meta_b.isSome
  let maL := match meta_a with | some a => listify a | none => []
  let mbL := match meta_b with | some b => listify b | none => []
  let gva := useMeta && !static_meta && decide (va.length < maL.length)
  let gma := useMeta && !static_meta && decide (maL.length < va.length)
  let gvb := useMeta && !static_meta && decide (vb.length < mbL.length)
  let gmb := useMeta && !static_meta && decide (mbL.length < vb.length)
  let data_a ← collectValues dfa index 0 va gva maL.length
  let data_b ← collectValues dfb index 1 vb gvb mbL.length
  let valueTuples := pyZip (applyOptFn tv (data_a ++ data_b))
  if useMeta then
    let metadata_a ← if static_meta then
        staticMeta index 0 va.length (constStatic meta_a)
      else
        collectValues dfa index 0 maL gma va.length
    let metadata_b ← if static_meta then
        staticMeta index 1 vb.length (constStatic meta_b)
      else
        collectValues dfb index 1 mbL gmb vb.length
    let metaTuples := pyZip (applyOptFn tm (metadata_a ++ metadata_b))
    pure ((valueTuples.zip metaTuples).map (fun p => Aligned.withMeta p.1 p.2))
  else
    pure (valueTuples.map Aligned.noMeta)

/-- `pd.Series(list(rows))`: the rows under a fresh integer range index. -/
def mkSeries (rows : List Aligned) : PSeries Aligned :=
  ⟨rangeLbls rows.length, rows⟩

/-- `FuseLinks._make_resolution_series`: the aligned rows as a series. -/
def makeResolutionSeries (df_a df_b : Option DFrame) (index : PairIndex)
    (values_a values_b : ColArg) (meta_a meta_b : Option ColArg)
    (transform_vals transform_meta : Option Callable) (static_meta : Bool) :
    Except FuseError (PSeries Aligned) :=
  (makeAlignedRows df_a df_b index values_a values_b meta_a meta_b
    transform_vals transform_meta static_meta).map mkSeries

/-- `FuseCore.resolve`: `data.apply(fun, args=params)`.  Pandas calls the
function bare when `args` is falsy (`None` or `()`), and with the extra
positional arguments otherwise; in the typed model both are the strategy
applied to the element and the (possibly empty) parameter list. -/
def resolve (rfun : Strategy) (data : PSeries Aligned) (params : Option (List PyVal)) :
    PSeries PyVal :=
  ⟨data.idx, data.vals.map (fun x => rfun x (params.getD []))⟩

/-- The mutable engine state (`FuseCore.__init__` fields).  `index` holds the
pair index whose `to_frame` view `indexFrameCol` reads. -/
structure FuseState where
  vectors : Option PairIndex
  index : Option PairIndex
  predictions : Option PyVal
  df_a : Option DFrame
  df_b : Option DFrame
  suffix_a : Option String
  suffix_b : Option String
  resolution_queue : List Job

/-- A freshly constructed engine. -/
def initState : FuseState :=
  ⟨none, none, none, none, none, none, none, []⟩

/-- `FuseCore.queue_resolve`: append one job dict; no validation. -/
def queue_resolve (s : FuseState) (rfun : Strategy) (values_a values_b : ColArg)
    (meta_a meta_b : Option ColArg) (transform_vals transform_meta : Option Callable)
    (static_meta : Bool) (params : Option (List PyVal)) : FuseState :=
  { s with resolution_queue := s.resolution_queue ++
      [⟨rfun, values_a, values_b, meta_a, meta_b, transform_vals, transform_meta,
        static_meta, params⟩] }

/-- `FuseCore._fusion_init`: store the run's inputs on the engine. -/
def fusionInit (s : FuseState) (vectors : PairIndex) (dfa dfb : Option DFrame)
    (predictions : Option PyVal) (sa sb : String) : FuseState :=
  { s with vectors := some vectors, index := some vectors,
           predictions := predictions, df_a := dfa, df_b := dfb,
           suffix_a := some sa, suffix_b := some sb }

/-- One loop iteration of `fuse`: build the job's resolution series from the
stored tables and the pair index, then resolve it. -/
def runJob (s : FuseState) (index : PairIndex) (j : Job) : Except FuseError (PSeries PyVal) := do
  let ser ← makeResolutionSeries s.df_a s.df_b index j.values_a j.values_b
    j.meta_a j.meta_b j.transform_vals j.transform_meta j.static_meta
  pure (resolve j.rfun ser j.params)

/-- The fused output table: row labels plus one value column per job. -/
structure Table where
  idx : List Lbl
  cols : List (List PyVal)
deriving DecidableEq, Repr

/-- Label lookup in a series (first match, `NaN` when absent). -/
def lookupLbl : List (Lbl × PyVal) → Lbl → PyVal
  | [], _ => PyVal.vnone
  | (k, v) :: rest, l => if k = l then v else lookupLbl rest l

/-- The value a series contributes at a given row label. -/
def seriesGet (s : PSeries PyVal) (l : Lbl) : PyVal :=
  lookupLbl (s.idx.zip s.vals) l

/-- The outer join of the row-label lists, in first-occurrence order. -/
def unionIdx (ls : List (List Lbl)) : List Lbl :=
  ls.foldl (fun acc l => acc ++ l.filter (fun x => !acc.any (fun y => decide (y = x)))) []

/-- `pd.concat(fused, axis=1)`: raises on an empty list, otherwise aligns
all columns on the joined row labels (`NaN`, i.e. `vnone`, where absent). -/
def concatCols (ls : List (PSeries PyVal)) : Except FuseError Table :=
  match ls with
  | [] => .error .noObjectsToConcat
  | _ =>
    let idx := unionIdx (ls.map PSeries.idx)
    .ok ⟨idx, ls.map (fun s => idx.map (seriesGet s))⟩

/-- `FuseCore.fuse`: store the inputs, run every queued job in order, and
concatenate the resolved columns.  Returns the post-run engine state and
the outcome. -/
def fuse (s : FuseState) (vectors : PairIndex) (dfa dfb : Option DFrame)
    (predictions : Option PyVal) (sa sb : String) :
    FuseState × Except FuseError Table :=
  let s1 := fusionInit s vectors dfa dfb predictions sa sb
  (s1, do
    let fused ← exMapM (runJob s1 vectors) s1.resolution_queue
    concatCols fused)

instance {ε α : Type} [DecidableEq ε] [DecidableEq α] : DecidableEq (Except ε α) := fun x y =>
  match x, y with
  | .ok a, .ok b => if h : a = b then .isTrue (by rw [h]) else .isFalse (by simp [h])
  | .error e, .error f => if h : e = f then .isTrue (by rw [h]) else .isFalse (by simp [h])
  | .ok _, .error _ => .isFalse (by simp)
  | .error _, .ok _ => .isFalse (by simp)

/-! ### Concrete fixtures used by witnesses and counterexamples -/

/-- Side-A table: value column `v` and metadata columns `m1`, `m2`, `m3`
over record ids 10 and 20 (table row order: 10 first). -/
def dfA1 : DFrame :=
  ⟨[(.vstr "v", [(10, .vstr "x"), (20, .vstr "y")]),
    (.vstr "m1", [(10, .vstr "p1"), (20, .vstr "q1")]),
    (.vstr "m2", [(10, .vstr "p2"), (20, .vstr "q2")]),
    (.vstr "m3", [(10, .vstr "p3"), (20, .vstr "q3")])]⟩

/-- Side-B table: value column `w` and metadata column `mb` over record id 5. -/
def dfB1 : DFrame :=
  ⟨[(.vstr "w", [(5, .vstr "z")]), (.vstr "mb", [(5, .vstr "r")])]⟩

/-- A one-pair index matching A-record 20 with B-record 5, unnamed levels. -/
def pi1 : PairIndex := ⟨none, none, [(20, 5)]⟩

/-- A strategy returning the first entry of the values tuple. -/
def firstValue : Strategy := fun a _ => (valuesOf a).getD 0 PyVal.vnone

/-- A plain job fetching `v` from side A and `w` from side B, no metadata. -/
def job1 : Job :=
  ⟨firstValue, .many [.vstr "v"], .many [.vstr "w"], none, none, none, none, false, none⟩

/-- The Python-side test "a transform argument was supplied but is not
callable" (drives the `callable(...) is not True` checks). -/
def isNotCallable : Option Callable → Bool
  | some .notCallable => true
  | _ => false

/-- Apply an optional unary transform to one value. -/
def applyFn1 : Option (PyVal → PyVal) → PyVal → PyVal
  | none, v => v
  | some f, v => f v

/-- Side-B table with two records, ids 5 and 6 in table order. -/
def dfB2 : DFrame :=
  ⟨[(.vstr "w", [(5, .vstr "z"), (6, .vstr "u")])]⟩

/-- A two-pair index, deliberately not in side-A table order:
A-record 20 matches B-record 5, then A-record 10 matches B-record 6. -/
def pi2 : PairIndex := ⟨none, none, [(20, 5), (10, 6)]⟩

/-- A transform that maps every value to the constant string `"T"`. -/
def tmConstT : Callable := .fn (fun _ => .vstr "T")

end RecordFuse


namespace RecordFuse

/-! ### Basic reduction lemmas for the exception monad -/

@[simp]
theorem ebind_ok (a : α) (f : α → Except FuseError β) :
    (Except.ok a >>= f : Except FuseError β) = f a := rfl

@[simp]
theorem ebind_err (e : FuseError) (f : α → Except FuseError β) :
    (Except.error e >>= f : Except FuseError β) = Except.error e := rfl

@[simp]
theorem epure_eq_ok (a : α) : (pure a : Except FuseError α) = Except.ok a := rfl

/-! ### C1 -/

/-- Claim C1 (code bug): with 1 value column and 3 metadata columns on side
A, the broadcast column's values are NOT fetched at the record ids of the
pair index: the source takes `self.df_a[values_a[0]]` whole, in table row
order, omitting `.loc[list(self.index[0])]`.  For the pair `(20, 5)` the
repeated side-A slots hold `"x"` (the value at table position 0, record 10)
although the value at the pair's matched record 20 — which the claim and the
spec's generalization rule require, and which the direct fetch path would
produce — is `"y"`. -/
theorem C1_generalized_values_ignore_pair_ids :
    makeAlignedRows (some dfA1) (some dfB1) pi1 (.many [.vstr "v"]) (.many [.vstr "w"])
      (some (.many [.vstr "m1", .vstr "m2", .vstr "m3"])) (some (.many [.vstr "mb"]))
      none none false
      = .ok [.withMeta [.vstr "x", .vstr "x", .vstr "x", .vstr "z"]
                       [.vstr "q1", .vstr "q2", .vstr "q3", .vstr "r"]] ∧
    fetchDirect dfA1 pi1 0 (.vstr "v") = .ok [.vstr "y"] ∧
    PyVal.vstr "x" ≠ PyVal.vstr "y" := by
  decide

/-! ### C7 -/

/-- Two engine states with the same queue are initialized identically by
`_fusion_init` (every other field is overwritten from the arguments). -/
theorem fusionInit_queue_eq (s1 s2 : FuseState) (vectors : PairIndex)
    (dfa dfb : Option DFrame) (preds : Option PyVal) (sa sb : String)
    (hq : s1.resolution_queue = s2.resolution_queue) :
    fusionInit s1 vectors dfa dfb preds sa sb = fusionInit s2 vectors dfa dfb preds sa sb := by
  simp [fusionInit, hq]

/-- Claim C7: `fuse` is deterministic — its outcome depends only on the
queued jobs and the call's inputs.  Two calls with identical inputs and
identical queues (in particular, a second call on the state left behind by
the first call) produce identical output tables; strategies are pure
functions in the model. -/
theorem C7_fuse_deterministic (s1 s2 : FuseState) (vectors : PairIndex)
    (dfa dfb : Option DFrame) (preds : Option PyVal) (sa sb : String)
    (hq : s1.resolution_queue = s2.resolution_queue) :
    (fuse s1 vectors dfa dfb preds sa sb).2 = (fuse s2 vectors dfa dfb preds sa sb).2 := by
  have h := fusionInit_queue_eq s1 s2 vectors dfa dfb preds sa sb hq
  simp only [fuse, h, hq]

/-- Witness for C7: rerunning `fuse` on the state left by a first run (same
inputs, same queue) yields the same output table. -/
theorem C7_fuse_deterministic_witness :
    (fuse { initState with resolution_queue := [job1] } pi1 (some dfA1) (some dfB1)
      none "_a" "_b").2 =
    (fuse (fuse { initState with resolution_queue := [job1] } pi1 (some dfA1) (some dfB1)
      none "_a" "_b").1 pi1 (some dfA1) (some dfB1) none "_a" "_b").2 :=
  C7_fuse_deterministic _ _ pi1 (some dfA1) (some dfB1) none "_a" "_b" rfl

/-! ### C10 -/

/-- Claim C10: with an empty resolution queue, `fuse` never returns an empty
table — the final `pd.concat` of zero columns raises, for every input. -/
theorem C10_empty_queue_concat_error (s : FuseState) (vectors : PairIndex)
    (dfa dfb : Option DFrame) (preds : Option PyVal) (sa sb : String)
    (hq : s.resolution_queue = []) :
    (fuse s vectors dfa dfb preds sa sb).2 = .error .noObjectsToConcat := by
  simp [fuse, fusionInit, hq, exMapM, concatCols]

/-- Witness for C10: a fresh engine with a non-empty pair index and present
tables still errors when fused with no queued jobs. -/
theorem C10_empty_queue_concat_error_witness :
    (fuse initState pi1 (some dfA1) (some dfB1) none "_a" "_b").2 =
      .error .noObjectsToConcat :=
  C10_empty_queue_concat_error initState pi1 (some dfA1) (some dfB1) none "_a" "_b" rfl

/-! ### Generic lemmas about the embedded combinators -/

theorem exMapM_ok_getD (f : α → Except FuseError β) (dA : α) (dB : β) :
    ∀ (l : List α) (out : List β), exMapM f l = .ok out →
      out.length = l.length ∧ ∀ i, i < l.length → f (l.getD i dA) = .ok (out.getD i dB)
  | [], out, h => by
    simp [exMapM] at h
    subst h
    simp
  | a :: as, out, h => by
    simp only [exMapM] at h
    cases hfa : f a with
    | error e => rw [hfa] at h; simp at h
    | ok b =>
      rw [hfa] at h
      cases hrest : exMapM f as with
      | error e => rw [hrest] at h; simp at h
      | ok bs =>
        rw [hrest] at h
        simp at h
        subst h
        have ih := exMapM_ok_getD f dA dB as bs hrest
        refine ⟨by simp [ih.1], fun i hi => ?_⟩
        cases i with
        | zero => simpa using hfa
        | succ n =>
          have hn : n < as.length := by simp at hi; omega
          simpa using ih.2 n hn

theorem exMapM_ok_mem (f : α → Except FuseError β) :
    ∀ (l : List α) (out : List β), exMapM f l = .ok out →
      out.length = l.length ∧ ∀ b ∈ out, ∃ a ∈ l, f a = .ok b
  | [], out, h => by
    simp [exMapM] at h
    subst h
    simp
  | a :: as, out, h => by
    simp only [exMapM] at h
    cases hfa : f a with
    | error e => rw [hfa] at h; simp at h
    | ok b =>
      rw [hfa] at h
      cases hrest : exMapM f as with
      | error e => rw [hrest] at h; simp at h
      | ok bs =>
        rw [hrest] at h
        simp at h
        subst h
        have ih := exMapM_ok_mem f as bs hrest
        refine ⟨by simp [ih.1], fun b hb => ?_⟩
        rcases List.mem_cons.mp hb with hb0 | hbs
        · exact ⟨a, List.mem_cons_self a as, hb0 ▸ hfa⟩
        · rcases ih.2 b hbs with ⟨x, hx, hfx⟩
          exact ⟨x, List.mem_cons_of_mem a hx, hfx⟩

theorem exMapM_ok_of_forall (f : α → Except FuseError β) (g : α → β) :
    ∀ (l : List α), (∀ a ∈ l, f a = .ok (g a)) → exMapM f l = .ok (l.map g)
  | [], _ => by simp [exMapM]
  | a :: as, h => by
    have ha := h a (List.mem_cons_self a as)
    have hrest := exMapM_ok_of_forall f g as (fun x hx => h x (List.mem_cons_of_mem a hx))
    simp [exMapM, ha, hrest]

theorem exMapM_error_kind (f : α → Except FuseError β) (P : FuseError → Bool)
    (hf : ∀ a e, f a = .error e → P e = true) :
    ∀ (l : List α) (e : FuseError), exMapM f l = .error e → P e = true
  | [], e, h => by simp [exMapM] at h
  | a :: as, e, h => by
    simp only [exMapM] at h
    cases hfa : f a with
    | error e0 =>
      rw [hfa] at h
      simp at h
      exact h ▸ hf a e0 hfa
    | ok b =>
      rw [hfa] at h
      cases hrest : exMapM f as with
      | error e0 =>
        rw [hrest] at h
        simp at h
        exact h ▸ exMapM_error_kind f P hf as e0 hrest
      | ok bs => rw [hrest] at h; simp at h

/-! ### Error-kind lemmas: everything after validation is a lookup-style error -/

theorem getCol_error (df : DFrame) (k : PyVal) (e : FuseError)
    (h : getCol df k = .error e) : e = .colNotFound k := by
  unfold getCol at h
  cases hf : df.cols.find? (fun c => decide (c.1 = k)) <;> rw [hf] at h <;> simp at h
  exact h.symm

theorem locOne_error (col : List (Nat × PyVal)) (id : Nat) (e : FuseError)
    (h : locOne col id = .error e) : e = .idNotFound id := by
  unfold locOne at h
  cases hf : col.find? (fun r => decide (r.1 = id)) <;> rw [hf] at h <;> simp at h
  exact h.symm

theorem indexFrameCol_error (index : PairIndex) (lvl : Nat) (e : FuseError)
    (h : indexFrameCol index lvl = .error e) : e = .indexKeyError lvl := by
  unfold indexFrameCol at h
  split at h
  · simp at h
  · split at h
    · simp at h
    · simp at h
      exact h.symm

theorem fetchDirect_error (df : DFrame) (index : PairIndex) (lvl : Nat) (name : PyVal)
    (e : FuseError) (h : fetchDirect df index lvl name = .error e) :
    isValidationError e = false := by
  unfold fetchDirect at h
  cases hc : getCol df name with
  | error e0 =>
    rw [hc] at h
    simp at h
    rw [← h, getCol_error df name e0 hc]
    rfl
  | ok c0 =>
    rw [hc] at h
    simp at h
    cases hi : indexFrameCol index lvl with
    | error e0 =>
      rw [hi] at h
      simp at h
      rw [← h, indexFrameCol_error index lvl e0 hi]
      rfl
    | ok ids =>
      rw [hi] at h
      simp at h
      unfold locList at h
      have hk : ∀ (a : Nat) (e0 : FuseError), locOne c0 a = .error e0 →
          (!isValidationError e0) = true := by
        intro a e0 he0
        rw [locOne_error c0 a e0 he0]
        rfl
      have := exMapM_error_kind (locOne c0) (fun x => !isValidationError x) hk ids e h
      simpa using this

theorem collectValues_error (df : DFrame) (index : PairIndex) (lvl : Nat)
    (names : List PyVal) (gen : Bool) (genLen : Nat) (e : FuseError)
    (h : collectValues df index lvl names gen genLen = .error e) :
    isValidationError e = false := by
  unfold collectValues at h
  split at h
  · cases names with
    | nil =>
      simp at h
      rw [← h]
      rfl
    | cons n0 rest =>
      simp only [] at h
      cases hc : getCol df n0 with
      | error e0 =>
        rw [hc] at h
        simp at h
        rw [← h, getCol_error df n0 e0 hc]
        rfl
      | ok c0 =>
        rw [hc] at h
        simp at h
  · have hk : ∀ (a : PyVal) (e0 : FuseError), fetchDirect df index lvl a = .error e0 →
        (!isValidationError e0) = true := by
      intro a e0 he0
      rw [Bool.not_eq_true']
      exact fetchDirect_error df index lvl a e0 he0
    have := exMapM_error_kind (fetchDirect df index lvl) (fun x => !isValidationError x)
      hk names e h
    simpa using this

theorem staticMeta_error (index : PairIndex) (lvl : Nat) (count : Nat) (c : PyVal)
    (e : FuseError) (h : staticMeta index lvl count c = .error e) :
    isValidationError e = false := by
  unfold staticMeta at h
  have hk : ∀ (a : Nat) (e0 : FuseError),
      (do
        let _ ← indexFrameCol index lvl
        pure (List.replicate index.pairs.length c) : Except FuseError (List PyVal)) = .error e0 →
      (!isValidationError e0) = true := by
    intro a e0 he0
    cases hi : indexFrameCol index lvl with
    | error e1 =>
      rw [hi] at he0
      simp at he0
      rw [← he0, indexFrameCol_error index lvl e1 hi]
      rfl
    | ok ids =>
      rw [hi] at he0
      simp at he0
  have := exMapM_error_kind _ (fun x => !isValidationError x) hk (List.range count) e h
  simpa using this


/-! ### Series and concatenation lemmas -/

theorem rangeLbls_length (n : Nat) : (rangeLbls n).length = n := by
  simp [rangeLbls]

theorem rangeLbls_nodup (n : Nat) : (rangeLbls n).Nodup := by
  unfold rangeLbls
  exact (List.nodup_range n).map Sum.inl_injective

theorem lookupLbl_cons_self (k : Lbl) (v : PyVal) (rest : List (Lbl × PyVal)) :
    lookupLbl ((k, v) :: rest) k = v := by
  simp [lookupLbl]

theorem lookupLbl_cons_ne (k l : Lbl) (v : PyVal) (rest : List (Lbl × PyVal))
    (h : k ≠ l) : lookupLbl ((k, v) :: rest) l = lookupLbl rest l := by
  simp [lookupLbl, h]

theorem map_lookupLbl_self :
    ∀ (ks : List Lbl) (vs : List PyVal), ks.Nodup → vs.length = ks.length →
      ks.map (fun l => lookupLbl (ks.zip vs) l) = vs
  | [], vs, _, hl => by
    simp at hl
    simp [hl]
  | k :: ks, vs, hnd, hl => by
    cases vs with
    | nil => simp at hl
    | cons v vs' =>
      simp only [List.zip_cons_cons, List.map_cons, lookupLbl_cons_self]
      have hk : k ∉ ks := (List.nodup_cons.mp hnd).1
      have : ks.map (fun l => lookupLbl ((k, v) :: ks.zip vs') l) =
          ks.map (fun l => lookupLbl (ks.zip vs') l) := by
        apply List.map_congr_left
        intro l hls
        exact lookupLbl_cons_ne k l v (ks.zip vs') (fun he => hk (he ▸ hls))
      rw [this, map_lookupLbl_self ks vs' (List.nodup_cons.mp hnd).2 (by simpa using hl)]

theorem unionIdx_step_const (L : List Lbl) :
    ∀ (ls : List (List Lbl)), (∀ x ∈ ls, x = L) →
      ls.foldl (fun acc l => acc ++ l.filter (fun x => !acc.any (fun y => decide (y = x)))) L = L
  | [], _ => rfl
  | l :: ls, h => by
    have hl : l = L := h l (List.mem_cons_self l ls)
    subst hl
    have hfilter : l.filter (fun x => !l.any (fun y => decide (y = x))) = [] := by
      apply List.filter_eq_nil_iff.mpr
      intro a ha hp
      rw [Bool.not_eq_true', List.any_eq_false] at hp
      exact hp a ha (by simp)
    simp only [List.foldl_cons, hfilter, List.append_nil]
    exact unionIdx_step_const l ls (fun x hx => h x (List.mem_cons_of_mem l hx))

theorem unionIdx_const (L : List Lbl) (ls : List (List Lbl)) (hne : ls ≠ [])
    (h : ∀ x ∈ ls, x = L) : unionIdx ls = L := by
  cases ls with
  | nil => exact absurd rfl hne
  | cons l ls' =>
    have hl : l = L := h l (List.mem_cons_self l ls')
    subst hl
    unfold unionIdx
    simp only [List.foldl_cons, List.nil_append]
    have : l.filter (fun x => !([] : List Lbl).any (fun y => decide (y = x))) = l := by
      simp
    rw [this]
    exact unionIdx_step_const l ls' (fun x hx => h x (List.mem_cons_of_mem l hx))

theorem concatCols_const_idx (L : List Lbl) (hnd : L.Nodup) (ls : List (PSeries PyVal))
    (hne : ls ≠ []) (h : ∀ s ∈ ls, s.idx = L ∧ s.vals.length = L.length) :
    concatCols ls = .ok ⟨L, ls.map PSeries.vals⟩ := by
  unfold concatCols
  cases ls with
  | nil => exact absurd rfl hne
  | cons s0 ls' =>
    have hidx : unionIdx ((s0 :: ls').map PSeries.idx) = L := by
      apply unionIdx_const
      · simp
      · intro x hx
        rcases List.mem_map.mp hx with ⟨s, hs, hsx⟩
        exact hsx ▸ (h s hs).1
    simp only [hidx]
    have hcols : (s0 :: ls').map (fun s => L.map (seriesGet s)) =
        (s0 :: ls').map PSeries.vals := by
      apply List.map_congr_left
      intro s hs
      have h1 := (h s hs).1
      have h2 := (h s hs).2
      unfold seriesGet
      rw [h1]
      exact map_lookupLbl_self L s.vals hnd (by rw [h2])
    rw [hcols]

/-! ### Shape of a successful job run -/

theorem makeResolutionSeries_ok (df_a df_b : Option DFrame) (index : PairIndex)
    (values_a values_b : ColArg) (meta_a meta_b : Option ColArg)
    (transform_vals transform_meta : Option Callable) (static_meta : Bool)
    (rows : List Aligned)
    (h : makeAlignedRows df_a df_b index values_a values_b meta_a meta_b
      transform_vals transform_meta static_meta = .ok rows) :
    makeResolutionSeries df_a df_b index values_a values_b meta_a meta_b
      transform_vals transform_meta static_meta = .ok ⟨rangeLbls rows.length, rows⟩ := by
  unfold makeResolutionSeries
  rw [h]
  rfl

theorem runJob_ok (s : FuseState) (index : PairIndex) (j : Job) (rows : List Aligned)
    (h : makeAlignedRows s.df_a s.df_b index j.values_a j.values_b j.meta_a j.meta_b
      j.transform_vals j.transform_meta j.static_meta = .ok rows) :
    runJob s index j = .ok ⟨rangeLbls rows.length,
      rows.map (fun x => j.rfun x (j.params.getD []))⟩ := by
  unfold runJob
  rw [makeResolutionSeries_ok s.df_a s.df_b index j.values_a j.values_b j.meta_a j.meta_b
    j.transform_vals j.transform_meta j.static_meta rows h]
  rfl

/-! ### C2 -/

/-- Counterexample to claim C2 as stated: the per-job output column and the
fused table are NOT indexed by the Pair Index.  `pd.Series(list(...))`
attaches a fresh integer range index, so for the one-pair index `(20, 5)`
the fused table's row labels are `[0]`, not the matched-identifier labels
`[(20, 5)]`. -/
theorem C2_output_not_pair_indexed :
    (fuse { initState with resolution_queue := [job1] } pi1 (some dfA1) (some dfB1)
      none "_a" "_b").2 = .ok ⟨[Sum.inl 0], [[PyVal.vstr "y"]]⟩ ∧
    pairLbls pi1 = [Sum.inr (20, 5)] ∧
    ([Sum.inl 0] : List Lbl) ≠ [Sum.inr (20, 5)] := by
  decide

/-- Claim C2 (amended): for every non-empty queue whose jobs all align
successfully with a common length `m`, `fuse` returns a table with one
column per queued job in queue order — column `j` being job `j`'s strategy
applied to each aligned element, in pair order — row-indexed by the fresh
integer range `0..m-1` (positionally aligned with the Pair Index), not by
the matched-identifier pairs. -/
theorem C2_fused_table_range_indexed (s : FuseState) (vectors : PairIndex)
    (dfa dfb : Option DFrame) (preds : Option PyVal) (sa sb : String) (m : Nat)
    (rows : Job → List Aligned)
    (hne : s.resolution_queue ≠ [])
    (hjobs : ∀ j ∈ s.resolution_queue,
      makeAlignedRows dfa dfb vectors j.values_a j.values_b j.meta_a j.meta_b
        j.transform_vals j.transform_meta j.static_meta = .ok (rows j) ∧
      (rows j).length = m) :
    (fuse s vectors dfa dfb preds sa sb).2 =
      .ok ⟨rangeLbls m,
           s.resolution_queue.map
             (fun j => (rows j).map (fun x => j.rfun x (j.params.getD [])))⟩ := by
  have hinit : ∀ j ∈ s.resolution_queue,
      runJob (fusionInit s vectors dfa dfb preds sa sb) vectors j =
        .ok ⟨rangeLbls m, (rows j).map (fun x => j.rfun x (j.params.getD []))⟩ := by
    intro j hj
    have h1 := (hjobs j hj).1
    have h2 := (hjobs j hj).2
    have := runJob_ok (fusionInit s vectors dfa dfb preds sa sb) vectors j (rows j)
      (by simpa [fusionInit] using h1)
    rw [h2] at this
    exact this
  have hmap := exMapM_ok_of_forall (runJob (fusionInit s vectors dfa dfb preds sa sb) vectors)
    (fun j => (⟨rangeLbls m, (rows j).map (fun x => j.rfun x (j.params.getD []))⟩ : PSeries PyVal))
    s.resolution_queue hinit
  have hconcat := concatCols_const_idx (rangeLbls m) (rangeLbls_nodup m)
    (s.resolution_queue.map
      (fun j => (⟨rangeLbls m, (rows j).map (fun x => j.rfun x (j.params.getD []))⟩ : PSeries PyVal)))
    (by simpa using hne)
    (by
      intro t ht
      rcases List.mem_map.mp ht with ⟨j, hj, hjt⟩
      subst hjt
      refine ⟨rfl, ?_⟩
      simp [rangeLbls_length, (hjobs j hj).2])
  simp only [fuse]
  rw [show (fusionInit s vectors dfa dfb preds sa sb).resolution_queue = s.resolution_queue
    from rfl]
  rw [hmap]
  simp only [ebind_ok]
  rw [hconcat]
  simp [List.map_map]

/-- Witness for the amended C2: one queued job over the one-pair fixture
produces a table with exactly one column, row-indexed by the range `[0]`. -/
theorem C2_fused_table_range_indexed_witness :
    (fuse { initState with resolution_queue := [job1] } pi1 (some dfA1) (some dfB1)
      none "_a" "_b").2 = .ok ⟨rangeLbls 1, [[PyVal.vstr "y"]]⟩ := by
  have := C2_fused_table_range_indexed { initState with resolution_queue := [job1] }
    pi1 (some dfA1) (some dfB1) none "_a" "_b" 1
    (fun _ => [.noMeta [.vstr "y", .vstr "z"]])
    (by simp)
    (by
      intro j hj
      rw [List.mem_singleton] at hj
      subst hj
      exact ⟨by decide, by decide⟩)
  simpa [job1, firstValue, valuesOf] using this

/-! ### C6 -/

/-- Claim C6: `queue_resolve` appends one job with the supplied fields and no
validation; during `fuse`, each job's strategy is applied to every aligned
element with the job's `strategy_params` as fixed extra positional arguments
on every call; and a job queued without explicit parameters (the `None`
default, which pandas' falsy `args` check treats exactly like an empty
tuple) has its strategy receive only the aligned pair record. -/
theorem C6_strategy_params (s : FuseState) (index : PairIndex)
    (dfa dfb : Option DFrame) (rfun : Strategy) (va vb : ColArg)
    (ma mb : Option ColArg) (tv tm : Option Callable) (st : Bool)
    (rows : List Aligned)
    (h : makeAlignedRows dfa dfb index va vb ma mb tv tm st = .ok rows) :
    (∀ ps, (queue_resolve s rfun va vb ma mb tv tm st ps).resolution_queue =
      s.resolution_queue ++ [⟨rfun, va, vb, ma, mb, tv, tm, st, ps⟩]) ∧
    (∀ (p : List PyVal) (s' : FuseState), s'.df_a = dfa → s'.df_b = dfb →
      runJob s' index ⟨rfun, va, vb, ma, mb, tv, tm, st, some p⟩ =
        .ok ⟨rangeLbls rows.length, rows.map (fun x => rfun x p)⟩) ∧
    (∀ (s' : FuseState), s'.df_a = dfa → s'.df_b = dfb →
      runJob s' index ⟨rfun, va, vb, ma, mb, tv, tm, st, none⟩ =
        .ok ⟨rangeLbls rows.length, rows.map (fun x => rfun x [])⟩) := by
  refine ⟨fun ps => rfl, fun p s' ha hb => ?_, fun s' ha hb => ?_⟩
  · have := runJob_ok s' index ⟨rfun, va, vb, ma, mb, tv, tm, st, some p⟩ rows
      (by rw [ha, hb]; exact h)
    simpa using this
  · have := runJob_ok s' index ⟨rfun, va, vb, ma, mb, tv, tm, st, none⟩ rows
      (by rw [ha, hb]; exact h)
    simpa using this

/-- Witness for C6: on the one-pair fixture, a job with explicit parameters
passes them to the strategy on every call, and the parameterless job's
strategy sees only the aligned record. -/
theorem C6_strategy_params_witness :
    (queue_resolve initState firstValue (.many [.vstr "v"]) (.many [.vstr "w"])
      none none none none false none).resolution_queue =
      [⟨firstValue, .many [.vstr "v"], .many [.vstr "w"],
        none, none, none, none, false, none⟩] ∧
    runJob { initState with df_a := some dfA1, df_b := some dfB1 } pi1
      ⟨fun _ ps => ps.getD 0 PyVal.vnone, .many [.vstr "v"], .many [.vstr "w"],
        none, none, none, none, false, some [PyVal.vint 7]⟩ =
      .ok ⟨rangeLbls 1, [PyVal.vint 7]⟩ ∧
    runJob { initState with df_a := some dfA1, df_b := some dfB1 } pi1
      ⟨fun _ ps => ps.getD 0 PyVal.vnone, .many [.vstr "v"], .many [.vstr "w"],
        none, none, none, none, false, none⟩ =
      .ok ⟨rangeLbls 1, [PyVal.vnone]⟩ := by
  have h6 := C6_strategy_params initState pi1 (some dfA1) (some dfB1)
    (fun _ ps => ps.getD 0 PyVal.vnone) (.many [.vstr "v"]) (.many [.vstr "w"])
    none none none none false [.noMeta [.vstr "y", .vstr "z"]] (by decide)
  refine ⟨?_, ?_, ?_⟩
  · rfl
  · exact h6.2.1 [PyVal.vint 7] _ rfl rfl
  · exact h6.2.2 _ rfl rfl

/-! ### C9 -/

theorem collectDirect_named_error (df : DFrame) (index : PairIndex) (lvl : Nat)
    (names : List PyVal) (genLen : Nat) (hn : names ≠ [])
    (hidx : indexFrameCol index lvl = .error (.indexKeyError lvl)) :
    ∃ e, collectValues df index lvl names false genLen = .error e ∧ isLookupError e = true := by
  cases names with
  | nil => exact absurd rfl hn
  | cons n0 rest =>
    unfold collectValues
    simp only [Bool.false_eq_true, if_false]
    unfold exMapM
    unfold fetchDirect
    cases hc : getCol df n0 with
    | error e0 =>
      refine ⟨e0, rfl, ?_⟩
      rw [getCol_error df n0 e0 hc]
      rfl
    | ok c0 =>
      refine ⟨.indexKeyError lvl, ?_, rfl⟩
      simp only [ebind_ok]
      rw [hidx]
      rfl

/-- Claim C9: `FuseLinks` addresses the two halves of the pair index through
the column labels `0` and `1` of `vectors.index.to_frame()`.  With unnamed
levels those labels exist and yield the A-half and B-half record ids; a
level carrying a (non-empty) name replaces its label, so the literal `0`/`1`
lookup raises a key error, and any job that fetches values through the pair
index consequently makes `_make_resolution_series` raise a lookup error. -/
theorem C9_pair_index_level_names (index : PairIndex) :
    (index.nameA = none → indexFrameCol index 0 = .ok (index.pairs.map Prod.fst)) ∧
    (index.nameB = none → indexFrameCol index 1 = .ok (index.pairs.map Prod.snd)) ∧
    (∀ sA, index.nameA = some sA → sA ≠ "" →
      indexFrameCol index 0 = .error (.indexKeyError 0)) ∧
    (∀ sB, index.nameB = some sB → sB ≠ "" →
      indexFrameCol index 1 = .error (.indexKeyError 1)) ∧
    (∀ sA sB (dfa dfb : DFrame) (va vb : ColArg) (tv tm : Option Callable) (st : Bool)
      (gv gm : Option (PyVal → PyVal)),
      index.nameA = some sA → sA ≠ "" → index.nameB = some sB → sB ≠ "" →
      checkCallable tv FuseError.transformValsNotCallable = .ok gv →
      checkCallable tm FuseError.transformMetaNotCallable = .ok gm →
      listify va ≠ [] ∨ listify vb ≠ [] →
      ∃ e, makeAlignedRows (some dfa) (some dfb) index va vb none none tv tm st = .error e ∧
        isLookupError e = true) := by
  have hkeyA : ∀ sA, index.nameA = some sA → sA ≠ "" →
      indexFrameCol index 0 = .error (.indexKeyError 0) := by
    intro sA hA hA0
    unfold indexFrameCol levelKey
    rw [hA]
    have : ¬sA.isEmpty = true := by
      simp [String.isEmpty_iff]
      exact hA0
    simp only [if_neg this]
    have h1 : ¬(Sum.inr sA : Nat ⊕ String) = Sum.inl 0 := by simp
    rw [if_neg h1]
    have h2 : ¬(match index.nameB with
        | none => (Sum.inl 1 : Nat ⊕ String)
        | some s => if s.isEmpty then Sum.inl 1 else Sum.inr s) = Sum.inl 0 := by
      cases hB : index.nameB with
      | none => simp
      | some sB =>
        by_cases hsb : sB.isEmpty <;> simp [hsb]
    rw [if_neg h2]
  have hkeyB : ∀ sB, index.nameB = some sB → sB ≠ "" →
      indexFrameCol index 1 = .error (.indexKeyError 1) := by
    intro sB hB hB0
    unfold indexFrameCol levelKey
    rw [hB]
    have hBne : ¬sB.isEmpty = true := by
      simp [String.isEmpty_iff]
      exact hB0
    have h1 : ¬(match index.nameA with
        | none => (Sum.inl 0 : Nat ⊕ String)
        | some s => if s.isEmpty then Sum.inl 0 else Sum.inr s) = Sum.inl 1 := by
      cases hA : index.nameA with
      | none => simp
      | some sA =>
        by_cases hsa : sA.isEmpty <;> simp [hsa]
    rw [if_neg h1]
    simp only [if_neg hBne]
    have h2 : ¬(Sum.inr sB : Nat ⊕ String) = Sum.inl 1 := by simp
    rw [if_neg h2]
  refine ⟨?_, ?_, hkeyA, hkeyB, ?_⟩
  · intro hA
    unfold indexFrameCol levelKey
    rw [hA]
    simp
  · intro hB
    unfold indexFrameCol levelKey
    rw [hB]
    have h1 : ¬(match index.nameA with
        | none => (Sum.inl 0 : Nat ⊕ String)
        | some s => if s.isEmpty then Sum.inl 0 else Sum.inr s) = Sum.inl 1 := by
      cases hA : index.nameA with
      | none => simp
      | some sA =>
        by_cases hsa : sA.isEmpty <;> simp [hsa]
    rw [if_neg h1]
    simp
  · intro sA sB dfa dfb va vb tv tm st gv gm hA hA0 hB hB0 hgv hgm hvals
    have hidx0 := hkeyA sA hA hA0
    have hidx1 := hkeyB sB hB hB0
    unfold makeAlignedRows
    simp only [reqSome, ebind_ok]
    rw [hgv]
    simp only [ebind_ok]
    rw [hgm]
    simp only [ebind_ok, Option.isSome_none, bne_self_eq_false, Bool.false_eq_true,
      if_false, Bool.false_or, Bool.false_and, epure_eq_ok]
    cases hva : listify va with
    | nil =>
      rcases hvals with hva' | hvb
      · exact absurd hva hva'
      · rcases collectDirect_named_error dfb index 1 (listify vb) 0 hvb hidx1 with ⟨e, he, hl⟩
        refine ⟨e, ?_, hl⟩
        simp only [List.length_nil]
        have h0 : collectValues dfa index 0 [] false 0 = .ok [] := rfl
        rw [h0]
        simp only [ebind_ok]
        rw [he]
        rfl
    | cons n0 rest =>
      rcases collectDirect_named_error dfa index 0 (listify va) 0 (by rw [hva]; simp) hidx0
        with ⟨e, he, hl⟩
      refine ⟨e, ?_, hl⟩
      rw [hva] at he
      simp only [List.length_nil]
      rw [he]
      rfl

/-- Witness for C9: on a both-levels-named one-pair index the `0`/`1`
addressing fails and a plain value-fetching job raises a lookup error,
while the unnamed fixture index is addressed successfully. -/
theorem C9_pair_index_level_names_witness :
    indexFrameCol ⟨some "first", some "second", [(20, 5)]⟩ 0 = .error (.indexKeyError 0) ∧
    indexFrameCol ⟨some "first", some "second", [(20, 5)]⟩ 1 = .error (.indexKeyError 1) ∧
    indexFrameCol pi1 0 = .ok [20] ∧
    indexFrameCol pi1 1 = .ok [5] ∧
    (∃ e, makeAlignedRows (some dfA1) (some dfB1) ⟨some "first", some "second", [(20, 5)]⟩
      (.many [.vstr "v"]) (.many [.vstr "w"]) none none none none false = .error e ∧
      isLookupError e = true) := by
  refine ⟨?_, ?_, ?_, ?_, ?_⟩
  · exact (C9_pair_index_level_names _).2.2.1 "first" rfl (by decide)
  · exact (C9_pair_index_level_names _).2.2.2.1 "second" rfl (by decide)
  · exact (C9_pair_index_level_names pi1).1 rfl
  · exact (C9_pair_index_level_names pi1).2.1 rfl
  · exact (C9_pair_index_level_names _).2.2.2.2 "first" "second" dfA1 dfB1
      (.many [.vstr "v"]) (.many [.vstr "w"]) none none false none none
      rfl (by decide) rfl (by decide) rfl rfl (Or.inl (by decide))

/-! ### C5 -/

theorem bind_error_kind {α β : Type} (x : Except FuseError α) (k : α → Except FuseError β)
    (P : FuseError → Bool)
    (hx : ∀ e, x = .error e → P e = false)
    (hk : ∀ a e, k a = .error e → P e = false) :
    ∀ e, (x >>= k) = .error e → P e = false := by
  intro e he
  cases x with
  | error e0 =>
    simp at he
    exact he ▸ hx e0 rfl
  | ok a =>
    simp at he
    exact hk a e he

theorem mar_dfANone (df_b : Option DFrame) (index : PairIndex) (va vb : ColArg)
    (ma mb : Option ColArg) (tv tm : Option Callable) (st : Bool) :
    makeAlignedRows none df_b index va vb ma mb tv tm st = .error .dfANone := rfl

theorem mar_dfBNone (da : DFrame) (index : PairIndex) (va vb : ColArg)
    (ma mb : Option ColArg) (tv tm : Option Callable) (st : Bool) :
    makeAlignedRows (some da) none index va vb ma mb tv tm st = .error .dfBNone := rfl

theorem mar_tvNotCallable (da db : DFrame) (index : PairIndex) (va vb : ColArg)
    (ma mb : Option ColArg) (tm : Option Callable) (st : Bool) :
    makeAlignedRows (some da) (some db) index va vb ma mb (some .notCallable) tm st =
      .error .transformValsNotCallable := rfl

theorem mar_tmNotCallable (da db : DFrame) (index : PairIndex) (va vb : ColArg)
    (ma mb : Option ColArg) (tv : Option Callable) (st : Bool)
    (gv : Option (PyVal → PyVal))
    (hgv : checkCallable tv FuseError.transformValsNotCallable = .ok gv) :
    makeAlignedRows (some da) (some db) index va vb ma mb tv (some .notCallable) st =
      .error .transformMetaNotCallable := by
  unfold makeAlignedRows
  simp only [reqSome, ebind_ok]
  rw [hgv]
  rfl

theorem mar_metaOneSided (da db : DFrame) (index : PairIndex) (va vb : ColArg)
    (ma mb : Option ColArg) (tv tm : Option Callable) (st : Bool)
    (gv gm : Option (PyVal → PyVal))
    (hgv : checkCallable tv FuseError.transformValsNotCallable = .ok gv)
    (hgm : checkCallable tm FuseError.transformMetaNotCallable = .ok gm)
    (hms : (ma.isSome != mb.isSome) = true) :
    makeAlignedRows (some da) (some db) index va vb ma mb tv tm st =
      .error .metaOneSided := by
  unfold makeAlignedRows
  simp only [reqSome, ebind_ok]
  rw [hgv]
  simp only [ebind_ok]
  rw [hgm]
  simp only [ebind_ok, hms, if_true]
  rfl

theorem mar_post_validation_error (da db : DFrame) (index : PairIndex) (va vb : ColArg)
    (ma mb : Option ColArg) (tv tm : Option Callable) (st : Bool)
    (gv gm : Option (PyVal → PyVal))
    (hgv : checkCallable tv FuseError.transformValsNotCallable = .ok gv)
    (hgm : checkCallable tm FuseError.transformMetaNotCallable = .ok gm)
    (hms : (ma.isSome != mb.isSome) = false) :
    ∀ e, makeAlignedRows (some da) (some db) index va vb ma mb tv tm st = .error e →
      isValidationError e = false := by
  unfold makeAlignedRows
  simp only [reqSome, ebind_ok]
  rw [hgv]
  simp only [ebind_ok]
  rw [hgm]
  simp only [ebind_ok, hms, Bool.false_eq_true, if_false, epure_eq_ok]
  refine bind_error_kind _ _ _ (fun e0 h0 => collectValues_error _ _ _ _ _ _ e0 h0) ?_
  intro data_a
  refine bind_error_kind _ _ _ (fun e0 h0 => collectValues_error _ _ _ _ _ _ e0 h0) ?_
  intro data_b
  split
  · split
    · refine bind_error_kind _ _ _ (fun e0 h0 => staticMeta_error _ _ _ _ e0 h0) ?_
      intro metadata_a
      refine bind_error_kind _ _ _ (fun e0 h0 => staticMeta_error _ _ _ _ e0 h0) ?_
      intro metadata_b e he
      simp at he
    · refine bind_error_kind _ _ _ (fun e0 h0 => collectValues_error _ _ _ _ _ _ e0 h0) ?_
      intro metadata_a
      refine bind_error_kind _ _ _ (fun e0 h0 => collectValues_error _ _ _ _ _ _ e0 h0) ?_
      intro metadata_b e he
      simp at he
  · intro e he
    simp at he

/-- Claim C5: building the resolution series raises a configuration error —
before any output for the job exists — exactly when a source table is
missing, a supplied transform is not callable, or metadata is given for one
side only; when none of these hold, no such validation error is raised (any
remaining failure is a lookup-style error). -/
theorem C5_validation_iff (df_a df_b : Option DFrame) (index : PairIndex)
    (va vb : ColArg) (ma mb : Option ColArg) (tv tm : Option Callable) (st : Bool) :
    (∃ e, makeAlignedRows df_a df_b index va vb ma mb tv tm st = .error e ∧
       isValidationError e = true) ↔
    (df_a.isNone || df_b.isNone || isNotCallable tv || isNotCallable tm ||
      (ma.isSome != mb.isSome)) = true := by
  constructor
  · rintro ⟨e, he, hve⟩
    by_contra hrhs
    cases df_a with
    | none => exact hrhs (by simp)
    | some da =>
      cases df_b with
      | none => exact hrhs (by simp)
      | some db =>
        have hgv : ∃ gv, checkCallable tv FuseError.transformValsNotCallable = .ok gv := by
          cases tv with
          | none => exact ⟨none, rfl⟩
          | some c =>
            cases c with
            | fn f => exact ⟨some f, rfl⟩
            | notCallable => exact absurd (by simp [isNotCallable]) hrhs
        have hgm : ∃ gm, checkCallable tm FuseError.transformMetaNotCallable = .ok gm := by
          cases tm with
          | none => exact ⟨none, rfl⟩
          | some c =>
            cases c with
            | fn f => exact ⟨some f, rfl⟩
            | notCallable => exact absurd (by simp [isNotCallable]) hrhs
        rcases hgv with ⟨gv, hgv⟩
        rcases hgm with ⟨gm, hgm⟩
        by_cases hms : (ma.isSome != mb.isSome) = true
        · exact hrhs (by simp [hms])
        · rw [Bool.not_eq_true] at hms
          have := mar_post_validation_error da db index va vb ma mb tv tm st gv gm
            hgv hgm hms e he
          rw [this] at hve
          exact Bool.false_ne_true hve
  · intro hrhs
    cases df_a with
    | none => exact ⟨.dfANone, mar_dfANone df_b index va vb ma mb tv tm st, rfl⟩
    | some da =>
      cases df_b with
      | none => exact ⟨.dfBNone, mar_dfBNone da index va vb ma mb tv tm st, rfl⟩
      | some db =>
        by_cases htv : isNotCallable tv = true
        · have : tv = some .notCallable := by
            cases tv with
            | none => simp [isNotCallable] at htv
            | some c =>
              cases c with
              | fn f => simp [isNotCallable] at htv
              | notCallable => rfl
          subst this
          exact ⟨.transformValsNotCallable,
            mar_tvNotCallable da db index va vb ma mb tm st, rfl⟩
        · have hgv : ∃ gv, checkCallable tv FuseError.transformValsNotCallable = .ok gv := by
            cases tv with
            | none => exact ⟨none, rfl⟩
            | some c =>
              cases c with
              | fn f => exact ⟨some f, rfl⟩
              | notCallable => simp [isNotCallable] at htv
          rcases hgv with ⟨gv, hgv⟩
          by_cases htm : isNotCallable tm = true
          · have : tm = some .notCallable := by
              cases tm with
              | none => simp [isNotCallable] at htm
              | some c =>
                cases c with
                | fn f => simp [isNotCallable] at htm
                | notCallable => rfl
            subst this
            exact ⟨.transformMetaNotCallable,
              mar_tmNotCallable da db index va vb ma mb tv st gv hgv, rfl⟩
          · have hgm : ∃ gm, checkCallable tm FuseError.transformMetaNotCallable = .ok gm := by
              cases tm with
              | none => exact ⟨none, rfl⟩
              | some c =>
                cases c with
                | fn f => exact ⟨some f, rfl⟩
                | notCallable => simp [isNotCallable] at htm
            rcases hgm with ⟨gm, hgm⟩
            have hms : (ma.isSome != mb.isSome) = true := by
              rw [Bool.not_eq_true] at htv htm
              simp [htv, htm, Option.isNone_none] at hrhs
              simpa using hrhs
            exact ⟨.metaOneSided,
              mar_metaOneSided da db index va vb ma mb tv tm st gv gm hgv hgm hms, rfl⟩

/-- Witness for C5: a missing side-A table raises its validation error, and
on the fixture job with both tables present and well-formed arguments no
validation error occurs. -/
theorem C5_validation_iff_witness :
    (∃ e, makeAlignedRows none (some dfB1) pi1 (.many [.vstr "v"]) (.many [.vstr "w"])
      none none none none false = .error e ∧ isValidationError e = true) ∧
    ¬ (∃ e, makeAlignedRows (some dfA1) (some dfB1) pi1 (.many [.vstr "v"])
      (.many [.vstr "w"]) none none none none false = .error e ∧
      isValidationError e = true) := by
  constructor
  · exact (C5_validation_iff none (some dfB1) pi1 (.many [.vstr "v"]) (.many [.vstr "w"])
      none none none none false).mpr rfl
  · intro hcontra
    have := (C5_validation_iff (some dfA1) (some dfB1) pi1 (.many [.vstr "v"])
      (.many [.vstr "w"]) none none none none false).mp hcontra
    simp [isNotCallable] at this

/-! ### C3 -/

theorem bind_ok_inv {α β : Type} (x : Except FuseError α) (k : α → Except FuseError β)
    (b : β) (h : (x >>= k) = .ok b) : ∃ a, x = .ok a ∧ k a = .ok b := by
  cases x with
  | error e => simp at h
  | ok a => exact ⟨a, rfl, by simpa using h⟩

theorem foldl_min_le_init : ∀ (ls : List (List PyVal)) (a : Nat),
    ls.foldl (fun m x => min m x.length) a ≤ a
  | [], a => le_refl a
  | l :: ls, a =>
    le_trans (foldl_min_le_init ls (min a l.length)) (min_le_left _ _)

theorem foldl_min_le_mem : ∀ (ls : List (List PyVal)) (a : Nat) (l : List PyVal), l ∈ ls →
    ls.foldl (fun m x => min m x.length) a ≤ l.length
  | [], _, l, h => absurd h (List.not_mem_nil l)
  | l0 :: ls, a, l, h => by
    rcases List.mem_cons.mp h with h0 | hmem
    · subst h0
      exact le_trans (foldl_min_le_init ls (min a l.length)) (min_le_right _ _)
    · exact foldl_min_le_mem ls (min a l0.length) l hmem

theorem pyZip_mem (ls : List (List PyVal)) (r : List PyVal) (hr : r ∈ pyZip ls) :
    ∃ i, (∀ l ∈ ls, i < l.length) ∧ r = ls.map (fun l => l.getD i PyVal.vnone) := by
  cases ls with
  | nil => simp [pyZip] at hr
  | cons l0 rest =>
    unfold pyZip at hr
    rcases List.mem_map.mp hr with ⟨i, hi, hir⟩
    rw [List.mem_range] at hi
    refine ⟨i, ?_, hir.symm⟩
    intro l hl
    rcases List.mem_cons.mp hl with h0 | hmem
    · subst h0
      have := foldl_min_le_init rest l.length
      omega
    · have := foldl_min_le_mem rest l0.length l hmem
      omega

theorem getD_replicate_of_lt (c d : PyVal) :
    ∀ (n i : Nat), i < n → (List.replicate n c).getD i d = c
  | 0, i, h => absurd h (Nat.not_lt_zero i)
  | _ + 1, 0, _ => rfl
  | n + 1, i + 1, h => getD_replicate_of_lt c d n i (Nat.lt_of_succ_lt_succ h)

theorem applyOptFn_eq_map (g : Option (PyVal → PyVal)) (ls : List (List PyVal)) :
    applyOptFn g ls = ls.map (fun l => l.map (fun v => applyFn1 g v)) := by
  cases g with
  | none => simp [applyOptFn, applyFn1]
  | some f => simp [applyOptFn, applyFn1]

theorem staticMeta_ok (index : PairIndex) (lvl : Nat) (count : Nat) (c : PyVal)
    (out : List (List PyVal)) (h : staticMeta index lvl count c = .ok out) :
    out = List.replicate count (List.replicate index.pairs.length c) := by
  unfold staticMeta at h
  have hm := exMapM_ok_mem _ _ _ h
  refine List.eq_replicate_iff.mpr ⟨by simpa using hm.1, ?_⟩
  intro b hb
  rcases hm.2 b hb with ⟨a, _, hfa⟩
  cases hi : indexFrameCol index lvl with
  | error e =>
    rw [hi] at hfa
    simp at hfa
  | ok ids =>
    rw [hi] at hfa
    simp at hfa
    exact hfa.symm

theorem static_rows_shape (da db : DFrame) (index : PairIndex) (va vb ca cb : ColArg)
    (tv tm : Option Callable) (gv gm : Option (PyVal → PyVal))
    (hgv : checkCallable tv FuseError.transformValsNotCallable = .ok gv)
    (hgm : checkCallable tm FuseError.transformMetaNotCallable = .ok gm)
    (rows : List Aligned)
    (h : makeAlignedRows (some da) (some db) index va vb (some ca) (some cb) tv tm true =
      .ok rows) :
    ∀ r ∈ rows, ∃ vs, r = .withMeta vs
      (List.replicate (listify va).length (applyFn1 gm (constArgVal ca)) ++
       List.replicate (listify vb).length (applyFn1 gm (constArgVal cb))) := by
  unfold makeAlignedRows at h
  simp only [reqSome, ebind_ok] at h
  rw [hgv] at h
  simp only [ebind_ok] at h
  rw [hgm] at h
  simp only [ebind_ok, Option.isSome_some, bne_self_eq_false, Bool.false_eq_true, if_false,
    Bool.or_self, Bool.not_true, Bool.and_false, Bool.false_and, Bool.and_self,
    eq_self_iff_true, if_true, epure_eq_ok, decide_eq_true_eq] at h
  rcases bind_ok_inv _ _ _ h with ⟨data_a, _, h⟩
  rcases bind_ok_inv _ _ _ h with ⟨data_b, _, h⟩
  rcases bind_ok_inv _ _ _ h with ⟨metadata_a, hma, h⟩
  rcases bind_ok_inv _ _ _ h with ⟨metadata_b, hmb, h⟩
  simp only [epure_eq_ok, Except.ok.injEq] at h
  have hsa := staticMeta_ok _ _ _ _ _ hma
  have hsb := staticMeta_ok _ _ _ _ _ hmb
  subst hsa
  subst hsb
  intro r hr
  rw [← h] at hr
  rcases List.mem_map.mp hr with ⟨p, hp, hpr⟩
  have hmt := (List.of_mem_zip hp).2
  have hbig : applyOptFn gm
      (List.replicate (listify va).length
        (List.replicate index.pairs.length (constStatic (some ca))) ++
       List.replicate (listify vb).length
        (List.replicate index.pairs.length (constStatic (some cb)))) =
      List.replicate (listify va).length
        (List.replicate index.pairs.length (applyFn1 gm (constArgVal ca))) ++
      List.replicate (listify vb).length
        (List.replicate index.pairs.length (applyFn1 gm (constArgVal cb))) := by
    rw [applyOptFn_eq_map, List.map_append, List.map_replicate, List.map_replicate,
      List.map_replicate, List.map_replicate]
    rfl
  rw [hbig] at hmt
  rcases pyZip_mem _ _ hmt with ⟨i, hilt, hpz⟩
  refine ⟨p.1, ?_⟩
  rw [← hpr]
  congr 1
  rw [hpz, List.map_append, List.map_replicate, List.map_replicate]
  congr 1
  · rcases Nat.eq_zero_or_pos (listify va).length with h0 | hpos
    · rw [h0]
      rfl
    · have hmem : List.replicate index.pairs.length (applyFn1 gm (constArgVal ca)) ∈
          (List.replicate (listify va).length
            (List.replicate index.pairs.length (applyFn1 gm (constArgVal ca))) ++
           List.replicate (listify vb).length
            (List.replicate index.pairs.length (applyFn1 gm (constArgVal cb)))) :=
        List.mem_append_left _ (List.mem_replicate.mpr ⟨Nat.pos_iff_ne_zero.mp hpos, rfl⟩)
      have hlt := hilt _ hmem
      rw [List.length_replicate] at hlt
      rw [getD_replicate_of_lt _ _ _ _ hlt]
  · rcases Nat.eq_zero_or_pos (listify vb).length with h0 | hpos
    · rw [h0]
      rfl
    · have hmem : List.replicate index.pairs.length (applyFn1 gm (constArgVal cb)) ∈
          (List.replicate (listify va).length
            (List.replicate index.pairs.length (applyFn1 gm (constArgVal ca))) ++
           List.replicate (listify vb).length
            (List.replicate index.pairs.length (applyFn1 gm (constArgVal cb)))) :=
        List.mem_append_right _ (List.mem_replicate.mpr ⟨Nat.pos_iff_ne_zero.mp hpos, rfl⟩)
      have hlt := hilt _ hmem
      rw [List.length_replicate] at hlt
      rw [getD_replicate_of_lt _ _ _ _ hlt]

/-- Counterexample to claim C3 as stated: a static-metadata job may also
carry a `transform_metadata`, and then every metadata tuple element is the
transformed constant, not the literal constant supplied ("a"/"b" become "T"
under a transform returning the constant string "T"). -/
theorem C3_static_meta_transformed :
    makeAlignedRows (some dfA1) (some dfB1) pi1 (.many [.vstr "v"]) (.many [.vstr "w"])
      (some (.one (.vstr "a"))) (some (.one (.vstr "b"))) none (some tmConstT) true
      = .ok [.withMeta [.vstr "y", .vstr "z"] [.vstr "T", .vstr "T"]] ∧
    PyVal.vstr "T" ≠ PyVal.vstr "a" ∧ PyVal.vstr "T" ≠ PyVal.vstr "b" := by
  decide

/-- Claim C3 (amended): for every job with `static_metadata = true` and
metadata constants supplied for both sides, any pair index and any table
contents, every successfully aligned pair's metadata tuple is the
caller-supplied side-A constant — transformed elementwise by
`transform_metadata` when one is configured — replicated `len(values_a)`
times, followed by the side-B constant likewise transformed, replicated
`len(values_b)` times; no per-record lookup is involved. -/
theorem C3_static_meta_const (df_a df_b : Option DFrame) (index : PairIndex)
    (va vb ca cb : ColArg) (tv tm : Option Callable) (rows : List Aligned)
    (h : makeAlignedRows df_a df_b index va vb (some ca) (some cb) tv tm true = .ok rows) :
    ∃ g, checkCallable tm FuseError.transformMetaNotCallable = .ok g ∧
      ∀ r ∈ rows, ∃ vs, r = .withMeta vs
        (List.replicate (listify va).length (applyFn1 g (constArgVal ca)) ++
         List.replicate (listify vb).length (applyFn1 g (constArgVal cb))) := by
  cases df_a with
  | none =>
    rw [mar_dfANone] at h
    simp at h
  | some da =>
    cases df_b with
    | none =>
      rw [mar_dfBNone] at h
      simp at h
    | some db =>
      have hgv : ∃ gv, checkCallable tv FuseError.transformValsNotCallable = .ok gv := by
        cases tv with
        | none => exact ⟨none, rfl⟩
        | some c =>
          cases c with
          | fn f => exact ⟨some f, rfl⟩
          | notCallable =>
            rw [mar_tvNotCallable] at h
            simp at h
      rcases hgv with ⟨gv, hgv⟩
      have hgm : ∃ gm, checkCallable tm FuseError.transformMetaNotCallable = .ok gm := by
        cases tm with
        | none => exact ⟨none, rfl⟩
        | some c =>
          cases c with
          | fn f => exact ⟨some f, rfl⟩
          | notCallable =>
            rw [mar_tmNotCallable da db index va vb (some ca) (some cb) tv true gv hgv] at h
            simp at h
      rcases hgm with ⟨gm, hgm⟩
      exact ⟨gm, hgm, static_rows_shape da db index va vb ca cb tv tm gv gm hgv hgm rows h⟩

/-- Witness for the amended C3: on the fixture static trust-style job with a
metadata transform, the one aligned row's metadata tuple is the transformed
side-A constant once, then the transformed side-B constant once. -/
theorem C3_static_meta_const_witness :
    ∃ g, checkCallable (some tmConstT) FuseError.transformMetaNotCallable = .ok g ∧
      ∀ r ∈ [Aligned.withMeta [PyVal.vstr "y", PyVal.vstr "z"]
               [PyVal.vstr "T", PyVal.vstr "T"]],
        ∃ vs, r = .withMeta vs
          (List.replicate (listify (.many [.vstr "v"])).length
            (applyFn1 g (constArgVal (.one (.vstr "a")))) ++
           List.replicate (listify (.many [.vstr "w"])).length
            (applyFn1 g (constArgVal (.one (.vstr "b"))))) :=
  C3_static_meta_const (some dfA1) (some dfB1) pi1 (.many [.vstr "v"]) (.many [.vstr "w"])
    (.one (.vstr "a")) (.one (.vstr "b")) none (some tmConstT)
    [Aligned.withMeta [PyVal.vstr "y", PyVal.vstr "z"] [PyVal.vstr "T", PyVal.vstr "T"]]
    (by decide)

/-! ### C8 -/

theorem pyZip_of_mem_zero (ls : List (List PyVal)) (l : List PyVal) (hl : l ∈ ls)
    (h0 : l.length = 0) : pyZip ls = [] := by
  cases ls with
  | nil => rfl
  | cons l0 rest =>
    unfold pyZip
    have hle : rest.foldl (fun m x => min m x.length) l0.length ≤ l.length := by
      rcases List.mem_cons.mp hl with h | h
      · subst h
        exact foldl_min_le_init rest l.length
      · exact foldl_min_le_mem rest l0.length l h
    rw [h0] at hle
    have hz : rest.foldl (fun m x => min m x.length) l0.length = 0 := Nat.le_zero.mp hle
    simp only [pyZip]
    rw [hz]
    rfl

theorem pyZip_zero_of_mem (g : Option (PyVal → PyVal)) (ds : List (List PyVal))
    (l : List PyVal) (hl : l ∈ ds) (h0 : l.length = 0) :
    pyZip (applyOptFn g ds) = [] := by
  rw [applyOptFn_eq_map]
  refine pyZip_of_mem_zero _ (l.map (fun v => applyFn1 g v)) (List.mem_map_of_mem _ hl) ?_
  simp [h0]

theorem applyOptFn_nil (g : Option (PyVal → PyVal)) : applyOptFn g [] = [] := by
  cases g <;> rfl

theorem collectValues_direct_ok_nil (df : DFrame) (index : PairIndex) (lvl : Nat)
    (names : List PyVal) (genLen : Nat) (hp : index.pairs = [])
    (out : List (List PyVal)) (h : collectValues df index lvl names false genLen = .ok out) :
    out.length = names.length ∧ ∀ l ∈ out, l.length = 0 := by
  unfold collectValues at h
  simp only [Bool.false_eq_true, if_false] at h
  have hm := exMapM_ok_mem _ _ _ h
  refine ⟨hm.1, ?_⟩
  intro l hl
  rcases hm.2 l hl with ⟨a, _, hfa⟩
  unfold fetchDirect at hfa
  rcases bind_ok_inv _ _ _ hfa with ⟨col, _, hfa⟩
  rcases bind_ok_inv _ _ _ hfa with ⟨ids, hids, hfa⟩
  have hids0 : ids = [] := by
    unfold indexFrameCol at hids
    split at hids
    · simp [hp] at hids
      exact hids
    · split at hids
      · simp [hp] at hids
        exact hids
      · simp at hids
  subst hids0
  unfold locList exMapM at hfa
  simp only [Except.ok.injEq] at hfa
  rw [← hfa]
  rfl

theorem aligned_rows_nil_core (da db : DFrame) (index : PairIndex) (va vb : ColArg)
    (ma mb : Option ColArg) (tv tm : Option Callable) (st : Bool)
    (gv gm : Option (PyVal → PyVal))
    (hgv : checkCallable tv FuseError.transformValsNotCallable = .ok gv)
    (hgm : checkCallable tm FuseError.transformMetaNotCallable = .ok gm)
    (hp : index.pairs = []) (rows : List Aligned)
    (h : makeAlignedRows (some da) (some db) index va vb ma mb tv tm st = .ok rows) :
    rows = [] := by
  cases ma with
  | none =>
    cases mb with
    | some b0 =>
      rw [mar_metaOneSided da db index va vb none (some b0) tv tm st gv gm hgv hgm rfl] at h
      simp at h
    | none =>
      unfold makeAlignedRows at h
      simp only [reqSome, ebind_ok] at h
      rw [hgv] at h
      simp only [ebind_ok] at h
      rw [hgm] at h
      simp only [ebind_ok, Option.isSome_none, bne_self_eq_false, Bool.false_eq_true,
        if_false, epure_eq_ok, Bool.or_self, Bool.false_and, List.length_nil] at h
      rcases bind_ok_inv _ _ _ h with ⟨data_a, hda, h⟩
      rcases bind_ok_inv _ _ _ h with ⟨data_b, hdb, h⟩
      have hza := collectValues_direct_ok_nil da index 0 (listify va) 0 hp data_a hda
      have hzb := collectValues_direct_ok_nil db index 1 (listify vb) 0 hp data_b hdb
      have hvt : pyZip (applyOptFn gv (data_a ++ data_b)) = [] := by
        cases hcase : data_a ++ data_b with
        | nil =>
          rw [applyOptFn_nil]
          rfl
        | cons c cs =>
          have hc : c ∈ data_a ++ data_b := by
            rw [hcase]
            exact List.mem_cons_self c cs
          have h0 : c.length = 0 := by
            rcases List.mem_append.mp hc with hm | hm
            · exact hza.2 c hm
            · exact hzb.2 c hm
          exact pyZip_zero_of_mem gv _ c (List.mem_cons_self c cs) h0
      rw [hvt] at h
      simp only [List.map_nil, Except.ok.injEq] at h
      exact h.symm
  | some a0 =>
    cases mb with
    | none =>
      rw [mar_metaOneSided da db index va vb (some a0) none tv tm st gv gm hgv hgm rfl] at h
      simp at h
    | some b0 =>
      unfold makeAlignedRows at h
      simp only [reqSome, ebind_ok] at h
      rw [hgv] at h
      simp only [ebind_ok] at h
      rw [hgm] at h
      simp only [ebind_ok, Option.isSome_some, bne_self_eq_false, Bool.false_eq_true,
        if_false, epure_eq_ok, Bool.or_self, Bool.true_and, eq_self_iff_true, if_true] at h
      rcases bind_ok_inv _ _ _ h with ⟨data_a, hda, h⟩
      rcases bind_ok_inv _ _ _ h with ⟨data_b, hdb, h⟩
      cases st with
      | true =>
        simp only [Bool.not_true, Bool.false_and] at hda hdb
        simp only [eq_self_iff_true, if_true] at h
        have hza := collectValues_direct_ok_nil da index 0 (listify va)
          (listify a0).length hp data_a hda
        have hzb := collectValues_direct_ok_nil db index 1 (listify vb)
          (listify b0).length hp data_b hdb
        rcases bind_ok_inv _ _ _ h with ⟨metadata_a, _, h⟩
        rcases bind_ok_inv _ _ _ h with ⟨metadata_b, _, h⟩
        have hvt : pyZip (applyOptFn gv (data_a ++ data_b)) = [] := by
          cases hcase : data_a ++ data_b with
          | nil =>
            rw [applyOptFn_nil]
            rfl
          | cons c cs =>
            have hc : c ∈ data_a ++ data_b := by
              rw [hcase]
              exact List.mem_cons_self c cs
            have h0 : c.length = 0 := by
              rcases List.mem_append.mp hc with hm | hm
              · exact hza.2 c hm
              · exact hzb.2 c hm
            exact pyZip_zero_of_mem gv _ c (List.mem_cons_self c cs) h0
        rw [hvt] at h
        simp only [List.zip_nil_left, List.map_nil, Except.ok.injEq] at h
        exact h.symm
      | false =>
        simp only [Bool.not_false, Bool.true_and] at hda hdb
        simp only [Bool.false_eq_true, if_false] at h
        rcases bind_ok_inv _ _ _ h with ⟨metadata_a, hma, h⟩
        rcases bind_ok_inv _ _ _ h with ⟨metadata_b, hmb, h⟩
        by_cases hgva : (listify va).length < (listify a0).length
        · have hgma : ¬ (listify a0).length < (listify va).length := Nat.lt_asymm hgva
          rw [decide_eq_false hgma] at hma
          have hz := collectValues_direct_ok_nil da index 0 (listify a0)
            (listify va).length hp metadata_a hma
          have hnon : metadata_a ≠ [] := by
            intro hcontra
            rw [hcontra] at hz
            simp at hz
            omega
          obtain ⟨c, hc⟩ := List.exists_mem_of_ne_nil metadata_a hnon
          have hmt : pyZip (applyOptFn gm (metadata_a ++ metadata_b)) = [] :=
            pyZip_zero_of_mem gm _ c (List.mem_append_left _ hc) (hz.2 c hc)
          rw [hmt] at h
          simp only [List.zip_nil_right, List.map_nil, Except.ok.injEq] at h
          exact h.symm
        · rw [decide_eq_false hgva] at hda
          have hza := collectValues_direct_ok_nil da index 0 (listify va)
            (listify a0).length hp data_a hda
          by_cases hgvb : (listify vb).length < (listify b0).length
          · have hgmb : ¬ (listify b0).length < (listify vb).length := Nat.lt_asymm hgvb
            rw [decide_eq_false hgmb] at hmb
            have hz := collectValues_direct_ok_nil db index 1 (listify b0)
              (listify vb).length hp metadata_b hmb
            have hnon : metadata_b ≠ [] := by
              intro hcontra
              rw [hcontra] at hz
              simp at hz
              omega
            obtain ⟨c, hc⟩ := List.exists_mem_of_ne_nil metadata_b hnon
            have hmt : pyZip (applyOptFn gm (metadata_a ++ metadata_b)) = [] :=
              pyZip_zero_of_mem gm _ c (List.mem_append_right _ hc) (hz.2 c hc)
            rw [hmt] at h
            simp only [List.zip_nil_right, List.map_nil, Except.ok.injEq] at h
            exact h.symm
          · rw [decide_eq_false hgvb] at hdb
            have hzb := collectValues_direct_ok_nil db index 1 (listify vb)
              (listify b0).length hp data_b hdb
            have hvt : pyZip (applyOptFn gv (data_a ++ data_b)) = [] := by
              cases hcase : data_a ++ data_b with
              | nil =>
                rw [applyOptFn_nil]
                rfl
              | cons c cs =>
                have hc : c ∈ data_a ++ data_b := by
                  rw [hcase]
                  exact List.mem_cons_self c cs
                have h0 : c.length = 0 := by
                  rcases List.mem_append.mp hc with hm | hm
                  · exact hza.2 c hm
                  · exact hzb.2 c hm
                exact pyZip_zero_of_mem gv _ c (List.mem_cons_self c cs) h0
            rw [hvt] at h
            simp only [List.zip_nil_left, List.map_nil, Except.ok.injEq] at h
            exact h.symm

theorem aligned_rows_nil (df_a df_b : Option DFrame) (index : PairIndex) (va vb : ColArg)
    (ma mb : Option ColArg) (tv tm : Option Callable) (st : Bool)
    (hp : index.pairs = []) (rows : List Aligned)
    (h : makeAlignedRows df_a df_b index va vb ma mb tv tm st = .ok rows) :
    rows = [] := by
  cases df_a with
  | none =>
    rw [mar_dfANone] at h
    simp at h
  | some da =>
    cases df_b with
    | none =>
      rw [mar_dfBNone] at h
      simp at h
    | some db =>
      have hgv : ∃ gv, checkCallable tv FuseError.transformValsNotCallable = .ok gv := by
        cases tv with
        | none => exact ⟨none, rfl⟩
        | some c =>
          cases c with
          | fn f => exact ⟨some f, rfl⟩
          | notCallable =>
            rw [mar_tvNotCallable] at h
            simp at h
      rcases hgv with ⟨gv, hgv⟩
      have hgm : ∃ gm, checkCallable tm FuseError.transformMetaNotCallable = .ok gm := by
        cases tm with
        | none => exact ⟨none, rfl⟩
        | some c =>
          cases c with
          | fn f => exact ⟨some f, rfl⟩
          | notCallable =>
            rw [mar_tmNotCallable da db index va vb ma mb tv st gv hgv] at h
            simp at h
      rcases hgm with ⟨gm, hgm⟩
      exact aligned_rows_nil_core da db index va vb ma mb tv tm st gv gm hgv hgm hp rows h

/-- Claim C8: with a pair index containing zero pairs and a non-empty queue
of jobs that align without error, `fuse` raises no error: every job's
aligned sequence is empty and the fused table has zero rows and one column
per queued job. -/
theorem C8_zero_pairs_empty_table (s : FuseState) (vectors : PairIndex)
    (dfa dfb : Option DFrame) (preds : Option PyVal) (sa sb : String)
    (hp : vectors.pairs = [])
    (hne : s.resolution_queue ≠ [])
    (hjobs : ∀ j ∈ s.resolution_queue, ∃ rows,
      makeAlignedRows dfa dfb vectors j.values_a j.values_b j.meta_a j.meta_b
        j.transform_vals j.transform_meta j.static_meta = .ok rows) :
    (fuse s vectors dfa dfb preds sa sb).2 =
      .ok ⟨[], List.replicate s.resolution_queue.length []⟩ := by
  have hinit : ∀ j ∈ s.resolution_queue,
      runJob (fusionInit s vectors dfa dfb preds sa sb) vectors j =
        .ok ⟨[], []⟩ := by
    intro j hj
    rcases hjobs j hj with ⟨rows, hrows⟩
    have hnil := aligned_rows_nil dfa dfb vectors j.values_a j.values_b j.meta_a j.meta_b
      j.transform_vals j.transform_meta j.static_meta hp rows hrows
    subst hnil
    have := runJob_ok (fusionInit s vectors dfa dfb preds sa sb) vectors j []
      (by simpa [fusionInit] using hrows)
    simpa [rangeLbls] using this
  have hmap := exMapM_ok_of_forall (runJob (fusionInit s vectors dfa dfb preds sa sb) vectors)
    (fun _ => (⟨[], []⟩ : PSeries PyVal)) s.resolution_queue hinit
  have hconcat := concatCols_const_idx [] List.nodup_nil
    (s.resolution_queue.map (fun _ => (⟨[], []⟩ : PSeries PyVal)))
    (by simpa using hne)
    (by
      intro t ht
      rcases List.mem_map.mp ht with ⟨j, _, hjt⟩
      subst hjt
      exact ⟨rfl, rfl⟩)
  simp only [fuse]
  rw [show (fusionInit s vectors dfa dfb preds sa sb).resolution_queue = s.resolution_queue
    from rfl]
  rw [hmap]
  simp only [ebind_ok]
  rw [hconcat]
  simp [List.map_map]

/-- Witness for C8: one queued job over a zero-pair index yields the empty
one-column table, not an error. -/
theorem C8_zero_pairs_empty_table_witness :
    (fuse { initState with resolution_queue := [job1] } ⟨none, none, []⟩ (some dfA1)
      (some dfB1) none "_a" "_b").2 = .ok ⟨[], [[]]⟩ := by
  have := C8_zero_pairs_empty_table { initState with resolution_queue := [job1] }
    ⟨none, none, []⟩ (some dfA1) (some dfB1) none "_a" "_b" rfl (by simp)
    (by
      intro j hj
      rw [List.mem_singleton] at hj
      subst hj
      exact ⟨[], by decide⟩)
  simpa using this

/-! ### C4 -/

theorem exMapM_ok_map {α β γ : Type} (f : α → Except FuseError β) (f2 : α → Except FuseError γ)
    (t : β → γ) (hrel : ∀ a b, f a = .ok b → f2 a = .ok (t b)) :
    ∀ (l : List α) (out : List β), exMapM f l = .ok out → exMapM f2 l = .ok (out.map t)
  | [], out, h => by
    simp [exMapM] at h
    subst h
    simp [exMapM]
  | a :: as, out, h => by
    simp only [exMapM] at h
    cases hfa : f a with
    | error e => rw [hfa] at h; simp at h
    | ok b =>
      rw [hfa] at h
      cases hrest : exMapM f as with
      | error e => rw [hrest] at h; simp at h
      | ok bs =>
        rw [hrest] at h
        simp at h
        subst h
        have ih := exMapM_ok_map f f2 t hrel as bs hrest
        simp only [exMapM, hrel a b hfa, ih, ebind_ok, List.map_cons]
        rfl

theorem getD_map_gen {α β : Type} (f : α → β) (d : β) (d' : α) :
    ∀ (l : List α) (i : Nat), i < l.length → (l.map f).getD i d = f (l.getD i d')
  | [], i, h => absurd h (by simp)
  | a :: l, 0, _ => rfl
  | a :: l, i + 1, h => getD_map_gen f d d' l i (by simpa using h)

theorem getD_range (P i : Nat) (h : i < P) : (List.range P).getD i 0 = i := by
  rw [List.getD_eq_getElem _ _ (by simpa using h)]
  simp

theorem getD_range_map {β : Type} (F : Nat → β) (d : β) (P i : Nat) (h : i < P) :
    ((List.range P).map F).getD i d = F i := by
  rw [getD_map_gen F d 0 (List.range P) i (by simpa using h), getD_range P i h]

theorem getD_zip {α β : Type} (d1 : α) (d2 : β) :
    ∀ (l1 : List α) (l2 : List β) (i : Nat), i < l1.length → i < l2.length →
      (l1.zip l2).getD i (d1, d2) = (l1.getD i d1, l2.getD i d2)
  | [], _, i, h1, _ => absurd h1 (by simp)
  | _ :: _, [], i, _, h2 => absurd h2 (by simp)
  | a :: l1, b :: l2, 0, _, _ => rfl
  | a :: l1, b :: l2, i + 1, h1, h2 =>
    getD_zip d1 d2 l1 l2 i (by simpa using h1) (by simpa using h2)

theorem foldl_min_all_eq (m : Nat) : ∀ (ls : List (List PyVal)),
    (∀ l ∈ ls, l.length = m) → ls.foldl (fun acc x => min acc x.length) m = m
  | [], _ => rfl
  | l :: ls, h => by
    have h0 : l.length = m := h l (List.mem_cons_self l ls)
    have hmin : min m l.length = m := by
      rw [h0]
      exact min_self m
    rw [List.foldl_cons, hmin]
    exact foldl_min_all_eq m ls (fun x hx => h x (List.mem_cons_of_mem l hx))

theorem pyZip_all_len (ls : List (List PyVal)) (m : Nat) (hne : ls ≠ [])
    (hlen : ∀ l ∈ ls, l.length = m) :
    pyZip ls = (List.range m).map (fun i => ls.map (fun l => l.getD i PyVal.vnone)) := by
  cases ls with
  | nil => exact absurd rfl hne
  | cons l0 rest =>
    have h0 : l0.length = m := hlen l0 (List.mem_cons_self l0 rest)
    simp only [pyZip]
    rw [h0, foldl_min_all_eq m rest (fun x hx => hlen x (List.mem_cons_of_mem l0 hx))]

theorem indexFrameCol_ok (index : PairIndex) (lvl : Nat) (ids : List Nat)
    (h : indexFrameCol index lvl = .ok ids) :
    (lvl = 0 ∧ ids = index.pairs.map Prod.fst) ∨
    (lvl = 1 ∧ ids = index.pairs.map Prod.snd) := by
  unfold indexFrameCol at h
  split at h
  · next heq =>
    left
    simp only [Except.ok.injEq] at h
    refine ⟨?_, h.symm⟩
    unfold levelKey at heq
    cases hna : index.nameA with
    | none =>
      rw [hna] at heq
      simp at heq
      omega
    | some s =>
      rw [hna] at heq
      by_cases hs : s.isEmpty <;> simp [hs] at heq
      omega
  · split at h
    · next heq =>
      right
      simp only [Except.ok.injEq] at h
      refine ⟨?_, h.symm⟩
      unfold levelKey at heq
      cases hnb : index.nameB with
      | none =>
        rw [hnb] at heq
        simp at heq
        omega
      | some s =>
        rw [hnb] at heq
        by_cases hs : s.isEmpty <;> simp [hs] at heq
        omega
    · simp at h

theorem collect_direct_lengths (df : DFrame) (index : PairIndex) (lvl : Nat)
    (idf : Nat × Nat → Nat) (names : List PyVal) (genLen : Nat) (out : List (List PyVal))
    (hidf : ∀ ids, indexFrameCol index lvl = .ok ids → ids = index.pairs.map idf)
    (h : collectValues df index lvl names false genLen = .ok out) :
    out.length = names.length ∧ ∀ l ∈ out, l.length = index.pairs.length := by
  unfold collectValues at h
  simp only [Bool.false_eq_true, if_false] at h
  have hm := exMapM_ok_mem _ _ _ h
  refine ⟨hm.1, ?_⟩
  intro l hl
  rcases hm.2 l hl with ⟨a, _, hfa⟩
  unfold fetchDirect at hfa
  rcases bind_ok_inv _ _ _ hfa with ⟨col, _, hfa⟩
  rcases bind_ok_inv _ _ _ hfa with ⟨ids, hids, hfa⟩
  unfold locList at hfa
  have hlen := (exMapM_ok_getD (locOne col) 0 PyVal.vnone ids l hfa).1
  rw [hidf ids hids] at hlen
  simpa using hlen

theorem side_values_fact (df : DFrame) (index : PairIndex) (lvl : Nat)
    (idf : Nat × Nat → Nat) (names : List PyVal) (genLen : Nat)
    (out : List (List PyVal)) (i : Nat) (hi : i < index.pairs.length)
    (hidf : ∀ ids, indexFrameCol index lvl = .ok ids → ids = index.pairs.map idf)
    (h : collectValues df index lvl names false genLen = .ok out) :
    exMapM (fun n => do
        let col ← getCol df n
        locOne col (idf (index.pairs.getD i (0, 0)))) names =
      .ok (out.map (fun l => l.getD i PyVal.vnone)) := by
  unfold collectValues at h
  simp only [Bool.false_eq_true, if_false] at h
  refine exMapM_ok_map (fetchDirect df index lvl) _ (fun l => l.getD i PyVal.vnone) ?_
    names out h
  intro a b hab
  unfold fetchDirect at hab
  rcases bind_ok_inv _ _ _ hab with ⟨col, hcol, hab⟩
  rcases bind_ok_inv _ _ _ hab with ⟨ids, hids, hab⟩
  have hids' := hidf ids hids
  subst hids'
  rw [hcol]
  simp only [ebind_ok]
  unfold locList at hab
  have hfact := exMapM_ok_getD (locOne col) 0 PyVal.vnone (index.pairs.map idf) b hab
  have hlen : i < (index.pairs.map idf).length := by simpa using hi
  have hpoint := hfact.2 i hlen
  rwa [getD_map_gen idf 0 (0, 0) index.pairs i hi] at hpoint

theorem indexFrameCol_zero_ids (index : PairIndex) :
    ∀ ids, indexFrameCol index 0 = .ok ids → ids = index.pairs.map Prod.fst := by
  intro ids h
  rcases indexFrameCol_ok index 0 ids h with ⟨_, h2⟩ | ⟨h1, _⟩
  · exact h2
  · exact absurd h1 (by omega)

theorem indexFrameCol_one_ids (index : PairIndex) :
    ∀ ids, indexFrameCol index 1 = .ok ids → ids = index.pairs.map Prod.snd := by
  intro ids h
  rcases indexFrameCol_ok index 1 ids h with ⟨h1, _⟩ | ⟨_, h2⟩
  · exact absurd h1 (by omega)
  · exact h2

theorem pyZip_opt_len (g : Option (PyVal → PyVal)) (ds : List (List PyVal)) (P : Nat)
    (hne : ds ≠ []) (hlen : ∀ l ∈ ds, l.length = P) :
    (pyZip (applyOptFn g ds)).length = P ∧
    ∀ i, i < P → (pyZip (applyOptFn g ds)).getD i [] =
      (ds.map (fun l => l.getD i PyVal.vnone)).map (fun v => applyFn1 g v) := by
  rw [applyOptFn_eq_map]
  have hne' : ds.map (fun l => l.map (fun v => applyFn1 g v)) ≠ [] := by
    intro hc
    exact hne (List.map_eq_nil_iff.mp hc)
  have hlen' : ∀ l ∈ ds.map (fun l => l.map (fun v => applyFn1 g v)), l.length = P := by
    intro l hl
    rcases List.mem_map.mp hl with ⟨l0, hl0, hl0e⟩
    rw [← hl0e, List.length_map]
    exact hlen l0 hl0
  rw [pyZip_all_len _ P hne' hlen']
  constructor
  · simp
  · intro i hi
    rw [getD_range_map _ [] P i hi]
    rw [List.map_map, List.map_map]
    apply List.map_congr_left
    intro l hl
    simp only [Function.comp]
    exact getD_map_gen (fun v => applyFn1 g v) PyVal.vnone PyVal.vnone l i
      (by rw [hlen l hl]; exact hi)

theorem vt_fact (da db : DFrame) (index : PairIndex) (vaL vbL : List PyVal)
    (gla glb : Nat) (data_a data_b : List (List PyVal)) (gv : Option (PyVal → PyVal))
    (hda : collectValues da index 0 vaL false gla = .ok data_a)
    (hdb : collectValues db index 1 vbL false glb = .ok data_b)
    (hvne : vaL ++ vbL ≠ []) :
    (pyZip (applyOptFn gv (data_a ++ data_b))).length = index.pairs.length ∧
    ∀ i, i < index.pairs.length →
      ∃ cA cB,
        exMapM (fun n => do
            let col ← getCol da n
            locOne col (index.pairs.getD i (0, 0)).1) vaL = .ok cA ∧
        exMapM (fun n => do
            let col ← getCol db n
            locOne col (index.pairs.getD i (0, 0)).2) vbL = .ok cB ∧
        (pyZip (applyOptFn gv (data_a ++ data_b))).getD i [] =
          cA.map (fun v => applyFn1 gv v) ++ cB.map (fun v => applyFn1 gv v) := by
  have hla := collect_direct_lengths da index 0 Prod.fst vaL gla data_a
    (indexFrameCol_zero_ids index) hda
  have hlb := collect_direct_lengths db index 1 Prod.snd vbL glb data_b
    (indexFrameCol_one_ids index) hdb
  have hdsne : data_a ++ data_b ≠ [] := by
    intro hc
    apply hvne
    have hlen0 := congrArg List.length hc
    rw [List.length_append, hla.1, hlb.1] at hlen0
    simp only [List.length_nil] at hlen0
    have hva0 : vaL = [] := List.length_eq_zero.mp (by omega)
    have hvb0 : vbL = [] := List.length_eq_zero.mp (by omega)
    rw [hva0, hvb0]
    rfl
  have hdslen : ∀ l ∈ data_a ++ data_b, l.length = index.pairs.length := by
    intro l hl
    rcases List.mem_append.mp hl with hm | hm
    · exact hla.2 l hm
    · exact hlb.2 l hm
  have hz := pyZip_opt_len gv (data_a ++ data_b) index.pairs.length hdsne hdslen
  refine ⟨hz.1, ?_⟩
  intro i hi
  refine ⟨data_a.map (fun l => l.getD i PyVal.vnone),
          data_b.map (fun l => l.getD i PyVal.vnone),
          side_values_fact da index 0 Prod.fst vaL gla data_a i hi
            (indexFrameCol_zero_ids index) hda,
          side_values_fact db index 1 Prod.snd vbL glb data_b i hi
            (indexFrameCol_one_ids index) hdb, ?_⟩
  rw [(hz.2 i hi : _), List.map_append, List.map_append]

theorem rows_zip_fact (vt mt : List (List PyVal)) (rows : List Aligned) (P : Nat)
    (hvt : vt.length = P) (hmt : mt.length = P)
    (hrows : (vt.zip mt).map (fun p => Aligned.withMeta p.1 p.2) = rows) :
    rows.length = P ∧ ∀ i, i < P → valuesOf (rows.getD i (.noMeta [])) = vt.getD i [] := by
  constructor
  · rw [← hrows, List.length_map, List.length_zip, hvt, hmt, min_self]
  · intro i hi
    rw [← hrows]
    rw [getD_map_gen (fun p => Aligned.withMeta p.1 p.2) (.noMeta []) ([], []) _ i
      (by rw [List.length_zip, hvt, hmt, min_self]; exact hi)]
    rw [getD_zip [] [] vt mt i (by rw [hvt]; exact hi) (by rw [hmt]; exact hi)]
    rfl

theorem append_ne_nil_of_lengths (xs ys : List (List PyVal)) (la lb : List PyVal)
    (hx : xs.length = la.length) (hy : ys.length = lb.length) (hne : la ++ lb ≠ []) :
    xs ++ ys ≠ [] := by
  intro hc
  apply hne
  have hlen0 := congrArg List.length hc
  rw [List.length_append, hx, hy] at hlen0
  simp only [List.length_nil] at hlen0
  have hva0 : la = [] := List.length_eq_zero.mp (by omega)
  have hvb0 : lb = [] := List.length_eq_zero.mp (by omega)
  rw [hva0, hvb0]
  rfl

/-- Claim C4: for every job whose value columns are fetched directly (no
generalization on either side: metadata absent, static, or equal listified
value/metadata counts per side), values are fetched at the record ids
referenced by each side's half of the pair index in pair order: the aligned
rows have exactly one entry per pair, and the i-th entry's values tuple
lists the side-A declared columns' values at pair i's A-record (transformed
by `transform_vals` when configured), followed by the side-B columns'
values at pair i's B-record, in declared column order. -/
theorem C4_direct_fetch_order (df_a df_b : Option DFrame) (index : PairIndex)
    (va vb : ColArg) (ma mb : Option ColArg) (tv tm : Option Callable) (st : Bool)
    (rows : List Aligned)
    (h : makeAlignedRows df_a df_b index va vb ma mb tv tm st = .ok rows)
    (hvne : listify va ++ listify vb ≠ [])
    (hnga : ∀ a0, ma = some a0 → st = true ∨ (listify a0).length = (listify va).length)
    (hngb : ∀ b0, mb = some b0 → st = true ∨ (listify b0).length = (listify vb).length) :
    ∃ g da db, checkCallable tv FuseError.transformValsNotCallable = .ok g ∧
      df_a = some da ∧ df_b = some db ∧
      rows.length = index.pairs.length ∧
      ∀ i, i < index.pairs.length →
        ∃ cA cB,
          exMapM (fun n => do
              let col ← getCol da n
              locOne col (index.pairs.getD i (0, 0)).1) (listify va) = .ok cA ∧
          exMapM (fun n => do
              let col ← getCol db n
              locOne col (index.pairs.getD i (0, 0)).2) (listify vb) = .ok cB ∧
          valuesOf (rows.getD i (.noMeta [])) =
            cA.map (fun v => applyFn1 g v) ++ cB.map (fun v => applyFn1 g v) := by
  cases df_a with
  | none =>
    rw [mar_dfANone] at h
    simp at h
  | some da =>
  cases df_b with
  | none =>
    rw [mar_dfBNone] at h
    simp at h
  | some db =>
  have hgv : ∃ gv, checkCallable tv FuseError.transformValsNotCallable = .ok gv := by
    cases tv with
    | none => exact ⟨none, rfl⟩
    | some c =>
      cases c with
      | fn f => exact ⟨some f, rfl⟩
      | notCallable =>
        rw [mar_tvNotCallable] at h
        simp at h
  rcases hgv with ⟨gv, hgv⟩
  have hgm : ∃ gm, checkCallable tm FuseError.transformMetaNotCallable = .ok gm := by
    cases tm with
    | none => exact ⟨none, rfl⟩
    | some c =>
      cases c with
      | fn f => exact ⟨some f, rfl⟩
      | notCallable =>
        rw [mar_tmNotCallable da db index va vb ma mb tv st gv hgv] at h
        simp at h
  rcases hgm with ⟨gm, hgm⟩
  refine ⟨gv, da, db, hgv, rfl, rfl, ?_⟩
  cases ma with
  | none =>
    cases mb with
    | some b0 =>
      rw [mar_metaOneSided da db index va vb none (some b0) tv tm st gv gm hgv hgm rfl] at h
      simp at h
    | none =>
      unfold makeAlignedRows at h
      simp only [reqSome, ebind_ok] at h
      rw [hgv] at h
      simp only [ebind_ok] at h
      rw [hgm] at h
      simp only [ebind_ok, Option.isSome_none, bne_self_eq_false, Bool.false_eq_true,
        if_false, epure_eq_ok, Bool.or_self, Bool.false_and, List.length_nil] at h
      rcases bind_ok_inv _ _ _ h with ⟨data_a, hda, h⟩
      rcases bind_ok_inv _ _ _ h with ⟨data_b, hdb, h⟩
      simp only [Except.ok.injEq] at h
      have hv := vt_fact da db index (listify va) (listify vb) 0 0 data_a data_b gv
        hda hdb hvne
      constructor
      · rw [← h, List.length_map, hv.1]
      · intro i hi
        rcases hv.2 i hi with ⟨cA, cB, hA, hB, hvt⟩
        refine ⟨cA, cB, hA, hB, ?_⟩
        rw [← h]
        rw [getD_map_gen Aligned.noMeta (.noMeta []) [] _ i (by rw [hv.1]; exact hi)]
        simp only [valuesOf]
        exact hvt
  | some a0 =>
    cases mb with
    | none =>
      rw [mar_metaOneSided da db index va vb (some a0) none tv tm st gv gm hgv hgm rfl] at h
      simp at h
    | some b0 =>
      unfold makeAlignedRows at h
      simp only [reqSome, ebind_ok] at h
      rw [hgv] at h
      simp only [ebind_ok] at h
      rw [hgm] at h
      simp only [ebind_ok, Option.isSome_some, bne_self_eq_false, Bool.false_eq_true,
        if_false, epure_eq_ok, Bool.or_self, Bool.true_and, eq_self_iff_true, if_true] at h
      rcases bind_ok_inv _ _ _ h with ⟨data_a, hda, h⟩
      rcases bind_ok_inv _ _ _ h with ⟨data_b, hdb, h⟩
      cases st with
      | true =>
        simp only [Bool.not_true, Bool.false_and] at hda hdb
        simp only [eq_self_iff_true, if_true] at h
        rcases bind_ok_inv _ _ _ h with ⟨metadata_a, hma, h⟩
        rcases bind_ok_inv _ _ _ h with ⟨metadata_b, hmb, h⟩
        simp only [Except.ok.injEq] at h
        have hsa := staticMeta_ok _ _ _ _ _ hma
        have hsb := staticMeta_ok _ _ _ _ _ hmb
        subst hsa
        subst hsb
        have hv := vt_fact da db index (listify va) (listify vb) (listify a0).length
          (listify b0).length data_a data_b gv hda hdb hvne
        have hdsne : List.replicate (listify va).length
              (List.replicate index.pairs.length (constStatic (some a0))) ++
            List.replicate (listify vb).length
              (List.replicate index.pairs.length (constStatic (some b0))) ≠ [] := by
          apply append_ne_nil_of_lengths _ _ (listify va) (listify vb)
            (by simp) (by simp) hvne
        have hdslen : ∀ l ∈ List.replicate (listify va).length
              (List.replicate index.pairs.length (constStatic (some a0))) ++
            List.replicate (listify vb).length
              (List.replicate index.pairs.length (constStatic (some b0))),
            l.length = index.pairs.length := by
          intro l hl
          rcases List.mem_append.mp hl with hm | hm
          · rw [List.eq_of_mem_replicate hm]
            exact List.length_replicate _ _
          · rw [List.eq_of_mem_replicate hm]
            exact List.length_replicate _ _
        have hmt := (pyZip_opt_len gm _ index.pairs.length hdsne hdslen).1
        have hzf := rows_zip_fact _ _ rows index.pairs.length hv.1 hmt h
        refine ⟨hzf.1, ?_⟩
        intro i hi
        rcases hv.2 i hi with ⟨cA, cB, hA, hB, hvt⟩
        refine ⟨cA, cB, hA, hB, ?_⟩
        rw [hzf.2 i hi]
        exact hvt
      | false =>
        simp only [Bool.not_false, Bool.true_and] at hda hdb
        simp only [Bool.false_eq_true, if_false] at h
        rcases bind_ok_inv _ _ _ h with ⟨metadata_a, hma, h⟩
        rcases bind_ok_inv _ _ _ h with ⟨metadata_b, hmb, h⟩
        simp only [Except.ok.injEq] at h
        rcases hnga a0 rfl with hst | heqa
        · exact absurd hst (by simp)
        rcases hngb b0 rfl with hst | heqb
        · exact absurd hst (by simp)
        rw [decide_eq_false (by omega : ¬ (listify va).length < (listify a0).length)] at hda
        rw [decide_eq_false (by omega : ¬ (listify vb).length < (listify b0).length)] at hdb
        rw [decide_eq_false (by omega : ¬ (listify a0).length < (listify va).length)] at hma
        rw [decide_eq_false (by omega : ¬ (listify b0).length < (listify vb).length)] at hmb
        have hv := vt_fact da db index (listify va) (listify vb) (listify a0).length
          (listify b0).length data_a data_b gv hda hdb hvne
        have hla := collect_direct_lengths da index 0 Prod.fst (listify a0)
          (listify va).length metadata_a (indexFrameCol_zero_ids index) hma
        have hlb := collect_direct_lengths db index 1 Prod.snd (listify b0)
          (listify vb).length metadata_b (indexFrameCol_one_ids index) hmb
        have hdsne : metadata_a ++ metadata_b ≠ [] := by
          apply append_ne_nil_of_lengths _ _ (listify va) (listify vb)
            (by rw [hla.1, heqa]) (by rw [hlb.1, heqb]) hvne
        have hdslen : ∀ l ∈ metadata_a ++ metadata_b, l.length = index.pairs.length := by
          intro l hl
          rcases List.mem_append.mp hl with hm | hm
          · exact hla.2 l hm
          · exact hlb.2 l hm
        have hmt := (pyZip_opt_len gm _ index.pairs.length hdsne hdslen).1
        have hzf := rows_zip_fact _ _ rows index.pairs.length hv.1 hmt h
        refine ⟨hzf.1, ?_⟩
        intro i hi
        rcases hv.2 i hi with ⟨cA, cB, hA, hB, hvt⟩
        refine ⟨cA, cB, hA, hB, ?_⟩
        rw [hzf.2 i hi]
        exact hvt

/-- Witness for C4: a plain two-column job over the two-pair fixture — the
i-th aligned row's values tuple is the declared columns fetched at the i-th
pair's record ids, side A before side B. -/
theorem C4_direct_fetch_order_witness :
    ∃ g da db, checkCallable none FuseError.transformValsNotCallable = .ok g ∧
      (some dfA1) = some da ∧ (some dfB2) = some db ∧
      ([Aligned.noMeta [PyVal.vstr "y", PyVal.vstr "z"],
        Aligned.noMeta [PyVal.vstr "x", PyVal.vstr "u"]] : List Aligned).length =
        pi2.pairs.length ∧
      ∀ i, i < pi2.pairs.length →
        ∃ cA cB,
          exMapM (fun n => do
              let col ← getCol da n
              locOne col (pi2.pairs.getD i (0, 0)).1) (listify (.many [.vstr "v"])) =
            .ok cA ∧
          exMapM (fun n => do
              let col ← getCol db n
              locOne col (pi2.pairs.getD i (0, 0)).2) (listify (.many [.vstr "w"])) =
            .ok cB ∧
          valuesOf (([Aligned.noMeta [PyVal.vstr "y", PyVal.vstr "z"],
            Aligned.noMeta [PyVal.vstr "x", PyVal.vstr "u"]] : List Aligned).getD i
              (.noMeta [])) =
            cA.map (fun v => applyFn1 g v) ++ cB.map (fun v => applyFn1 g v) :=
  C4_direct_fetch_order (some dfA1) (some dfB2) pi2 (.many [.vstr "v"])
    (.many [.vstr "w"]) none none none none false
    [Aligned.noMeta [PyVal.vstr "y", PyVal.vstr "z"],
     Aligned.noMeta [PyVal.vstr "x", PyVal.vstr "u"]]
    (by decide) (by decide) (fun a0 ha => nomatch ha) (fun b0 hb => nomatch hb)

end RecordFuse
